import Mathlib

/-!
Verification of the content-safety gate and guard-token protocol of the
carplay voice-assistant backend.

The development shallowly embeds the TypeScript source:

* the guard-token codec (`signGuardToken` / `isValidGuardToken` from
  `src/netlify/functions/realtime-guard.ts` and `src/api/realtime/session.ts`),
  including a faithful url-safe base64 codec and a small JSON reader that
  models the behaviour of `JSON.parse` on the payloads the protocol uses;
* the health-request classifier (`isBlockedHealthRequest` and the three
  deployed `blockedHealthPatterns` tiers), with an executable backtracking
  matcher for the regular-expression constructs the pattern lists use
  (literals, character classes, optional groups, alternation, `\b`);
* the endpoint orchestration (`handler` of the session, guard and
  voice-chat variants) as pure outcome functions over the request data and
  the collaborator responses.

HMAC-SHA256 (`crypto.createHmac`) is an external collaborator; following
the specification it is modelled as an abstract function
`mac : String → String → String` returning the url-safe-base64 digest, and
theorems that need it assume only that its output is dot-free (true of
base64) and, where a claim demands it, that it is collision-free across
keys.  A concrete collision-free instance `macModel` witnesses that the
assumptions are satisfiable.
-/

namespace CarplayGuard

/-! ## JavaScript-style helpers -/

/-- JS truthiness of an optional string (`undefined`/`''` are falsy). -/
def jsPresent : Option String → Bool
  | none => false
  | some s => s ≠ ""

/-- JS `a || b` for an optional string `a` (empty string falls through). -/
def jsOrStr (a : Option String) (b : String) : String :=
  match a with
  | none => b
  | some s => if s = "" then b else s

/-! ## Decimal digits

`JSON.stringify` prints the numeric `exp` field in decimal; the JSON reader
on the verify side parses it back.  Both directions are implemented here
with a proved round trip. -/

def digitChar (n : Nat) : Char :=
  ['0', '1', '2', '3', '4', '5', '6', '7', '8', '9'].getD n '0'

def isDigitChar (c : Char) : Bool := 48 ≤ c.toNat && c.toNat ≤ 57

/-- Decimal digits of `n`, most significant first (fuel-based so that the
kernel can evaluate it). -/
def natDigitsAux : Nat → Nat → List Char
  | 0, _ => []
  | fuel + 1, n =>
    if n < 10 then [digitChar n]
    else natDigitsAux fuel (n / 10) ++ [digitChar (n % 10)]

def natDigits (n : Nat) : List Char := natDigitsAux (n + 1) n

/-- Split off the leading run of decimal digits. -/
def takeDigits : List Char → List Char × List Char
  | [] => ([], [])
  | c :: rest =>
    if isDigitChar c then
      let (ds, r) := takeDigits rest
      (c :: ds, r)
    else ([], c :: rest)

def digitsToNatAux (acc : Nat) : List Char → Nat
  | [] => acc
  | c :: rest => digitsToNatAux (acc * 10 + (c.toNat - 48)) rest

def digitsToNat (ds : List Char) : Nat := digitsToNatAux 0 ds

theorem natDigitsAux_irrel (f1 : Nat) :
    ∀ f2 n, n < f1 → n < f2 → natDigitsAux f1 n = natDigitsAux f2 n := by
  induction f1 with
  | zero => omega
  | succ f ih =>
    intro f2 n h1 h2
    cases f2 with
    | zero => omega
    | succ g =>
      by_cases h10 : n < 10
      · simp [natDigitsAux, h10]
      · have hn : 0 < n := by omega
        have hlt : n / 10 < n := Nat.div_lt_self hn (by omega)
        simp only [natDigitsAux, h10, if_false]
        rw [ih g (n / 10) (by omega) (by omega)]

theorem natDigits_eq (n : Nat) :
    natDigits n =
      (if n < 10 then [digitChar n]
       else natDigits (n / 10) ++ [digitChar (n % 10)]) := by
  have step : natDigitsAux (n + 1) n
      = if n < 10 then [digitChar n]
        else natDigitsAux n (n / 10) ++ [digitChar (n % 10)] := rfl
  by_cases h10 : n < 10
  · simp [natDigits, step, h10]
  · have hn : 0 < n := by omega
    have hlt : n / 10 < n := Nat.div_lt_self hn (by omega)
    rw [natDigits, step]
    simp only [h10, if_false]
    rw [natDigitsAux_irrel n (n / 10 + 1) (n / 10) (by omega) (by omega)]
    rfl

theorem digitChar_isDigit (n : Nat) (h : n < 10) : isDigitChar (digitChar n) = true := by
  interval_cases n <;> decide

theorem natDigits_all_digits (n : Nat) : ∀ c ∈ natDigits n, isDigitChar c = true := by
  induction n using Nat.strong_induction_on with
  | _ n ih =>
    rw [natDigits_eq]
    by_cases h : n < 10
    · simp only [h, if_true, List.mem_singleton]
      rintro c rfl
      exact digitChar_isDigit n h
    · simp only [h, if_false, List.mem_append, List.mem_singleton]
      rintro c (hc | rfl)
      · exact ih (n / 10) (Nat.div_lt_self (by omega) (by omega)) c hc
      · exact digitChar_isDigit _ (Nat.mod_lt _ (by omega))

theorem natDigits_ne_nil (n : Nat) : natDigits n ≠ [] := by
  rw [natDigits_eq]
  by_cases h : n < 10 <;> simp [h]

theorem digitsToNatAux_append (acc : Nat) (xs ys : List Char) :
    digitsToNatAux acc (xs ++ ys) = digitsToNatAux (digitsToNatAux acc xs) ys := by
  induction xs generalizing acc with
  | nil => rfl
  | cons c xs ih =>
    show digitsToNatAux (acc * 10 + (c.toNat - 48)) (xs ++ ys)
        = digitsToNatAux (digitsToNatAux acc (c :: xs)) ys
    rw [ih]
    rfl

theorem digitChar_toNat (n : Nat) (h : n < 10) : (digitChar n).toNat - 48 = n := by
  interval_cases n <;> decide

theorem digitsToNatAux_natDigits (acc n : Nat) :
    digitsToNatAux acc (natDigits n) = acc * 10 ^ (natDigits n).length + n := by
  induction n using Nat.strong_induction_on generalizing acc with
  | _ n ih =>
    rw [natDigits_eq]
    by_cases h : n < 10
    · rw [if_pos h]
      show acc * 10 + ((digitChar n).toNat - 48) = acc * 10 ^ ([digitChar n]).length + n
      rw [digitChar_toNat n h]
      norm_num
    · rw [if_neg h, digitsToNatAux_append]
      have hd : n / 10 < n := Nat.div_lt_self (by omega) (by omega)
      rw [ih (n / 10) hd acc]
      rw [List.length_append, List.length_singleton]
      show (acc * 10 ^ (natDigits (n / 10)).length + n / 10) * 10
            + ((digitChar (n % 10)).toNat - 48)
          = acc * 10 ^ ((natDigits (n / 10)).length + 1) + n
      rw [digitChar_toNat _ (Nat.mod_lt _ (by omega)), pow_succ]
      have hmod := Nat.div_add_mod n 10
      set P := 10 ^ (natDigits (n / 10)).length with hP
      have hexp : (acc * P + n / 10) * 10 + n % 10
          = acc * (P * 10) + (10 * (n / 10) + n % 10) := by ring
      rw [hexp, hmod]

theorem digitsToNat_natDigits (n : Nat) : digitsToNat (natDigits n) = n := by
  unfold digitsToNat
  rw [digitsToNatAux_natDigits]
  simp

theorem takeDigits_digits_prefix (ds rest : List Char)
    (hds : ∀ c ∈ ds, isDigitChar c = true)
    (hrest : ∀ c, rest.head? = some c → isDigitChar c = false) :
    takeDigits (ds ++ rest) = (ds, rest) := by
  induction ds with
  | nil =>
    cases rest with
    | nil => rfl
    | cons c r =>
      have := hrest c rfl
      simp [takeDigits, this]
  | cons c ds ih =>
    have hc := hds c (by simp)
    have : takeDigits (ds ++ rest) = (ds, rest) := ih (fun x hx => hds x (by simp [hx]))
    simp [takeDigits, hc, this]

/-! ## Url-safe base64

The source encodes with `Buffer.from(input).toString('base64')` followed by
`+`→`-`, `/`→`_` and stripping `=` padding (`base64UrlEncode`), and decodes
by reversing the replacements, re-padding and `Buffer.from(_, 'base64')`
(`base64UrlDecode`).  The model implements the net effect directly in the
url-safe alphabet without padding.  The decoder is strict (it rejects
characters outside the alphabet and impossible lengths); Node's decoder is
lenient on malformed input, but on such input the decoded bytes fail
`JSON.parse` in the source just as the strict decoder fails here, so the
verifier's boolean result agrees. -/

def b64UrlAlphabet : List Char :=
  ['A', 'B', 'C', 'D', 'E', 'F', 'G', 'H', 'I', 'J', 'K', 'L', 'M',
   'N', 'O', 'P', 'Q', 'R', 'S', 'T', 'U', 'V', 'W', 'X', 'Y', 'Z',
   'a', 'b', 'c', 'd', 'e', 'f', 'g', 'h', 'i', 'j', 'k', 'l', 'm',
   'n', 'o', 'p', 'q', 'r', 's', 't', 'u', 'v', 'w', 'x', 'y', 'z',
   '0', '1', '2', '3', '4', '5', '6', '7', '8', '9', '-', '_']

def b64UrlChar (n : Nat) : Char := b64UrlAlphabet.getD n 'A'

def lookupIdx (c : Char) : List Char → Option Nat
  | [] => none
  | d :: rest => if c = d then some 0 else (lookupIdx c rest).map (· + 1)

def b64UrlIndex (c : Char) : Option Nat := lookupIdx c b64UrlAlphabet

/-- Encode a byte list (3 bytes → 4 sextet characters, shorter tails →
2 or 3 characters, matching unpadded base64). -/
def encB64 : List Nat → List Char
  | [] => []
  | [a] => [b64UrlChar (a / 4), b64UrlChar (a % 4 * 16)]
  | [a, b] =>
    [b64UrlChar (a / 4), b64UrlChar (a % 4 * 16 + b / 16), b64UrlChar (b % 16 * 4)]
  | a :: b :: c :: rest =>
    b64UrlChar (a / 4) :: b64UrlChar (a % 4 * 16 + b / 16)
      :: b64UrlChar (b % 16 * 4 + c / 64) :: b64UrlChar (c % 64) :: encB64 rest

/-- Strict decode back to bytes. -/
def decB64 : List Char → Option (List Nat)
  | [] => some []
  | [_] => none
  | [w, x] => do
    let w' ← b64UrlIndex w
    let x' ← b64UrlIndex x
    pure [w' * 4 + x' / 16]
  | [w, x, y] => do
    let w' ← b64UrlIndex w
    let x' ← b64UrlIndex x
    let y' ← b64UrlIndex y
    pure [w' * 4 + x' / 16, x' % 16 * 16 + y' / 4]
  | w :: x :: y :: z :: rest => do
    let w' ← b64UrlIndex w
    let x' ← b64UrlIndex x
    let y' ← b64UrlIndex y
    let z' ← b64UrlIndex z
    let tail ← decB64 rest
    pure ((w' * 4 + x' / 16) :: (x' % 16 * 16 + y' / 4) :: (y' % 4 * 64 + z') :: tail)

theorem b64_index_char : ∀ n, n < 64 → b64UrlIndex (b64UrlChar n) = some n := by
  decide

theorem b64UrlChar_ne_dot (n : Nat) : b64UrlChar n ≠ '.' := by
  unfold b64UrlChar List.getD
  cases h : b64UrlAlphabet.get? n with
  | none => simp
  | some c =>
    have hc : c ∈ b64UrlAlphabet := List.get?_mem h
    have : ∀ d ∈ b64UrlAlphabet, d ≠ '.' := by decide
    simp only [h, Option.getD_some]
    exact this c hc

theorem encB64_no_dot : ∀ bs : List Nat, '.' ∉ encB64 bs := by
  intro bs
  induction bs using encB64.induct with
  | case1 => simp [encB64]
  | case2 a =>
    simp only [encB64, List.mem_cons, List.not_mem_nil, or_false]
    rintro (h | h) <;> exact (b64UrlChar_ne_dot _ h.symm)
  | case3 a b =>
    simp only [encB64, List.mem_cons, List.not_mem_nil, or_false]
    rintro (h | h | h) <;> exact (b64UrlChar_ne_dot _ h.symm)
  | case4 a b c rest ih =>
    simp only [encB64, List.mem_cons]
    rintro (h | h | h | h | h)
    · exact b64UrlChar_ne_dot _ h.symm
    · exact b64UrlChar_ne_dot _ h.symm
    · exact b64UrlChar_ne_dot _ h.symm
    · exact b64UrlChar_ne_dot _ h.symm
    · exact ih h

theorem decB64_encB64 :
    ∀ bs : List Nat, (∀ b ∈ bs, b < 256) → decB64 (encB64 bs) = some bs := by
  intro bs
  induction bs using encB64.induct with
  | case1 => intro _; rfl
  | case2 a =>
    intro hb
    have ha := hb a (by simp)
    simp only [encB64, decB64]
    rw [b64_index_char (a / 4) (by omega), b64_index_char (a % 4 * 16) (by omega)]
    simp only [Option.bind_eq_bind, Option.some_bind, pure]
    congr 1
    have : a / 4 * 4 + a % 4 * 16 / 16 = a := by omega
    rw [this]
  | case3 a b =>
    intro hb
    have ha := hb a (by simp)
    have hb' := hb b (by simp)
    simp only [encB64, decB64]
    rw [b64_index_char (a / 4) (by omega),
        b64_index_char (a % 4 * 16 + b / 16) (by omega),
        b64_index_char (b % 16 * 4) (by omega)]
    simp only [Option.bind_eq_bind, Option.some_bind, pure]
    congr 1
    have h1 : a / 4 * 4 + (a % 4 * 16 + b / 16) / 16 = a := by omega
    have h2 : (a % 4 * 16 + b / 16) % 16 * 16 + b % 16 * 4 / 4 = b := by omega
    rw [h1, h2]
  | case4 a b c rest ih =>
    intro hb
    have ha := hb a (by simp)
    have hbb := hb b (by simp)
    have hc := hb c (by simp)
    have ihh := ih (fun x hx => hb x (by simp [hx]))
    show decB64 (b64UrlChar (a / 4) :: b64UrlChar (a % 4 * 16 + b / 16)
      :: b64UrlChar (b % 16 * 4 + c / 64) :: b64UrlChar (c % 64) :: encB64 rest)
        = some (a :: b :: c :: rest)
    rw [decB64]
    rw [b64_index_char (a / 4) (by omega),
        b64_index_char (a % 4 * 16 + b / 16) (by omega),
        b64_index_char (b % 16 * 4 + c / 64) (by omega),
        b64_index_char (c % 64) (by omega), ihh]
    simp only [Option.bind_eq_bind, Option.some_bind, pure]
    congr 1
    have h1 : a / 4 * 4 + (a % 4 * 16 + b / 16) / 16 = a := by omega
    have h2 : (a % 4 * 16 + b / 16) % 16 * 16 + (b % 16 * 4 + c / 64) / 4 = b := by omega
    have h3 : (b % 16 * 4 + c / 64) % 4 * 64 + c % 64 = c := by omega
    rw [h1, h2, h3]

/-! ### Bytes of ASCII strings

`Buffer.from(string)` takes UTF-8 bytes; for the ASCII payloads the
protocol serialises this is exactly the char-code list. -/

def bytesAscii : List Nat → Option (List Char)
  | [] => some []
  | b :: rest =>
    if b < 128 then (bytesAscii rest).map (Char.ofNat b :: ·) else none

theorem bytesAscii_charCodes (s : List Char) (h : ∀ c ∈ s, c.toNat < 128) :
    bytesAscii (s.map Char.toNat) = some s := by
  induction s with
  | nil => rfl
  | cons c rest ih =>
    have hc := h c (by simp)
    simp only [List.map_cons, bytesAscii, hc, if_pos]
    rw [ih (fun x hx => h x (by simp [hx]))]
    simp [Char.ofNat_toNat]

/-- The source's `base64UrlEncode`. -/
def base64UrlEncode (s : String) : String :=
  String.mk (encB64 (s.data.map Char.toNat))

/-- The source's `base64UrlDecode` (strict model, see above). -/
def base64UrlDecode (s : List Char) : Option (List Char) :=
  (decB64 s).bind bytesAscii

theorem base64UrlDecode_encode (s : String) (h : ∀ c ∈ s.data, c.toNat < 128) :
    base64UrlDecode (base64UrlEncode s).data = some s.data := by
  unfold base64UrlDecode base64UrlEncode
  rw [decB64_encB64]
  · simp only [Option.bind_eq_bind, Option.some_bind]
    exact bytesAscii_charCodes s.data h
  · intro b hb
    simp only [List.mem_map] at hb
    obtain ⟨c, hc, rfl⟩ := hb
    have := h c hc
    omega

theorem encode_no_dot (s : String) : '.' ∉ (base64UrlEncode s).data :=
  encB64_no_dot _

/-! ## Splitting on `.`

Models JavaScript `token.split('.')`. -/

def splitDot : List Char → List (List Char)
  | [] => [[]]
  | c :: rest =>
    if c = '.' then [] :: splitDot rest
    else
      match splitDot rest with
      | [] => [[c]]
      | g :: gs => (c :: g) :: gs

theorem splitDot_no_dot (s : List Char) (h : '.' ∉ s) : splitDot s = [s] := by
  induction s with
  | nil => rfl
  | cons c rest ih =>
    have hc : c ≠ '.' := fun hh => h (by simp [hh])
    have hrest : '.' ∉ rest := fun hh => h (by simp [hh])
    simp only [splitDot, hc, if_false, ih hrest]

theorem splitDot_pair (a b : List Char) (ha : '.' ∉ a) (hb : '.' ∉ b) :
    splitDot (a ++ '.' :: b) = [a, b] := by
  induction a with
  | nil => simp [splitDot, splitDot_no_dot b hb]
  | cons c rest ih =>
    have hc : c ≠ '.' := fun hh => ha (by simp [hh])
    have hrest : '.' ∉ rest := fun hh => ha (by simp [hh])
    simp only [List.cons_append, splitDot, hc, if_false, List.append_eq]
    rw [ih hrest]

/-! ## A model of `JSON.parse`

The verifier parses the decoded payload with `JSON.parse` and reads the
`exp` and `allowed` properties.  The model below parses objects, arrays,
strings (without escape sequences), `true`/`false`/`null` and integer
numbers — everything the guard-token payloads use.  Payloads outside this
fragment (string escapes, fractional numbers) fail the model parser where
`JSON.parse` would succeed; for the verifier both roads lead to the same
fail-closed `false`, and no minted payload is affected. -/

inductive Json where
  | num (n : Int)
  | str (s : List Char)
  | bool (b : Bool)
  | null
  | arr (elems : List Json)
  | obj (fields : List (List Char × Json))

def isJsonWs (c : Char) : Bool :=
  c = ' ' || c = '\t' || c = '\n' || c = '\r'

def skipWs : List Char → List Char
  | [] => []
  | c :: rest => if isJsonWs c then skipWs rest else c :: rest

/-- Body of a string literal after the opening quote. -/
def parseStringBody : List Char → Option (List Char × List Char)
  | [] => none
  | c :: rest =>
    if c = '"' then some ([], rest)
    else if c = '\\' then none
    else (parseStringBody rest).map (fun sr => (c :: sr.1, sr.2))

def dropLit : List Char → List Char → Option (List Char)
  | [], s => some s
  | _ :: _, [] => none
  | c :: p, d :: s => if c = d then dropLit p s else none

def parseNumber (s : List Char) : Option (Int × List Char) :=
  match s with
  | [] => none
  | c :: rest =>
    if c = '-' then
      let p := takeDigits rest
      if p.1 = [] then none else some (-(digitsToNat p.1 : Int), p.2)
    else
      let p := takeDigits (c :: rest)
      if p.1 = [] then none else some ((digitsToNat p.1 : Int), p.2)

mutual

def parseVal : Nat → List Char → Option (Json × List Char)
  | 0, _ => none
  | fuel + 1, s0 =>
    match skipWs s0 with
    | [] => none
    | c :: rest =>
      if c = '"' then (parseStringBody rest).map (fun sr => (Json.str sr.1, sr.2))
      else if c = '{' then
        match skipWs rest with
        | '}' :: r => some (Json.obj [], r)
        | _ => parseFields fuel rest []
      else if c = '[' then
        match skipWs rest with
        | ']' :: r => some (Json.arr [], r)
        | _ => parseElems fuel rest []
      else if c = 't' then (dropLit ['r', 'u', 'e'] rest).map (fun r => (Json.bool true, r))
      else if c = 'f' then (dropLit ['a', 'l', 's', 'e'] rest).map (fun r => (Json.bool false, r))
      else if c = 'n' then (dropLit ['u', 'l', 'l'] rest).map (fun r => (Json.null, r))
      else (parseNumber (c :: rest)).map (fun nr => (Json.num nr.1, nr.2))

def parseFields :
    Nat → List Char → List (List Char × Json) → Option (Json × List Char)
  | 0, _, _ => none
  | fuel + 1, s, acc =>
    match skipWs s with
    | '"' :: rest =>
      match parseStringBody rest with
      | none => none
      | some kr =>
        match skipWs kr.2 with
        | ':' :: r2 =>
          match parseVal fuel r2 with
          | none => none
          | some vr =>
            match skipWs vr.2 with
            | ',' :: r4 => parseFields fuel r4 ((kr.1, vr.1) :: acc)
            | '}' :: r4 => some (Json.obj ((kr.1, vr.1) :: acc).reverse, r4)
            | _ => none
        | _ => none
    | _ => none

def parseElems : Nat → List Char → List Json → Option (Json × List Char)
  | 0, _, _ => none
  | fuel + 1, s, acc =>
    match parseVal fuel s with
    | none => none
    | some vr =>
      match skipWs vr.2 with
      | ',' :: r2 => parseElems fuel r2 (vr.1 :: acc)
      | ']' :: r2 => some (Json.arr (vr.1 :: acc).reverse, r2)
      | _ => none

end

/-- Model of `JSON.parse` on a char list: a single value followed by
whitespace only. -/
def jsonParse (s : List Char) : Option Json :=
  match parseVal (2 * s.length + 2) s with
  | some vr => if skipWs vr.2 = [] then some vr.1 else none
  | none => none

/-- Property read on the parsed value; for duplicate keys `JSON.parse`
keeps the last occurrence. -/
def getField (j : Json) (key : List Char) : Option Json :=
  match j with
  | Json.obj fields =>
    match (fields.filter (fun kv => kv.1 == key)).getLast? with
    | some kv => some kv.2
    | none => none
  | _ => none

/-- JavaScript truthiness of a property read (`undefined` when absent). -/
def jsTruthy : Option Json → Bool
  | none => false
  | some (Json.num n) => n ≠ 0
  | some (Json.str s) => s ≠ []
  | some (Json.bool b) => b
  | some Json.null => false
  | some (Json.arr _) => true
  | some (Json.obj _) => true

def trimChars (s : List Char) : List Char :=
  ((skipWs ((skipWs s).reverse)).reverse)

/-- JavaScript `Number(x)` coercion as used by `payload.exp >= now`;
arrays/objects (which JS coerces via `toString`) are modelled as NaN —
no protocol payload carries them in `exp`. -/
def jsToNumber : Json → Option Int
  | Json.num n => some n
  | Json.bool b => some (if b then 1 else 0)
  | Json.null => some 0
  | Json.str s =>
    let t := trimChars s
    if t = [] then some 0
    else
      match t with
      | '-' :: ds =>
        if ds ≠ [] ∧ ds.all isDigitChar then some (-(digitsToNat ds : Int)) else none
      | ds => if ds.all isDigitChar then some ((digitsToNat ds : Int)) else none
  | Json.arr _ => none
  | Json.obj _ => none

/-- `payload.exp >= now` (NaN comparisons are false). -/
def jsGeNow (v : Option Json) (now : Nat) : Bool :=
  match v with
  | none => false
  | some j =>
    match jsToNumber j with
    | some i => decide ((now : Int) ≤ i)
    | none => false

/-! ## The guard-token codec -/

def expKey : List Char := ['e', 'x', 'p']

def allowedKey : List Char := ['a', 'l', 'l', 'o', 'w', 'e', 'd']

/-- `JSON.stringify({ exp: expiresAt, allowed: true })` as serialised by
`signGuardToken` (insertion order: `exp` first, then `allowed`). -/
def claimJson (expiresAt : Nat) : List Char :=
  ['{', '"', 'e', 'x', 'p', '"', ':'] ++ natDigits expiresAt ++
    [',', '"', 'a', 'l', 'l', 'o', 'w', 'e', 'd', '"', ':', 't', 'r', 'u', 'e', '}']

/-- What `JSON.parse` recovers from `claimJson`. -/
def claimObj (e : Nat) : Json :=
  Json.obj [(expKey, Json.num (e : Int)), (allowedKey, Json.bool true)]

/-- `signGuardToken` of `src/netlify/functions/realtime-guard.ts` (identical
in `src/api/realtime/guard.ts` and `src/unnamed/part_004`): serialise the
claim, base64url-encode it, HMAC-sign the encoded payload and join with a
period.  `mac secret message` abstracts
`createHmac('sha256', secret).update(message).digest('base64')` followed by
the url-safe replacements, i.e. it returns the url-safe digest text. -/
def signGuardToken (mac : String → String → String) (secret : String)
    (expiresAt : Nat) : String :=
  let payloadB64 := base64UrlEncode (String.mk (claimJson expiresAt))
  let signature := mac secret payloadB64
  payloadB64 ++ "." ++ signature

/-- A correctly signed token over an arbitrary payload string — what the
holder of the signing secret can craft; probes the verifier beyond the
payloads `signGuardToken` itself produces. -/
def signedTokenFor (mac : String → String → String) (secret payload : String) : String :=
  base64UrlEncode payload ++ "." ++ mac secret (base64UrlEncode payload)

/-- `isValidGuardToken` of `src/api/realtime/session.ts` (identical in
`src/unnamed/part_003`): split on `.`, require exactly two segments,
recompute the HMAC over the payload segment and compare, then decode and
`JSON.parse` the payload (failures caught → `false`), require truthy
`allowed` and `exp` (`!payload.allowed || !payload.exp`), and accept iff
`payload.exp >= now`. -/
def isValidGuardToken (mac : String → String → String) (token secret : String)
    (now : Nat) : Bool :=
  match splitDot token.data with
  | [payloadB64, signatureB64] =>
    let expectedSig := mac secret (String.mk payloadB64)
    if signatureB64 ≠ expectedSig.data then false
    else
      match base64UrlDecode payloadB64 with
      | none => false
      | some payloadChars =>
        match jsonParse payloadChars with
        | none => false
        | some payload =>
          if ¬ jsTruthy (getField payload allowedKey)
              ∨ ¬ jsTruthy (getField payload expKey) then false
          else jsGeNow (getField payload expKey) now
  | _ => false

/-! ### Parsing the serialised claim -/

theorem digit_not_special (c : Char) (h : isDigitChar c = true) :
    isJsonWs c = false ∧ c ≠ '"' ∧ c ≠ '{' ∧ c ≠ '[' ∧ c ≠ 't' ∧ c ≠ 'f' ∧
      c ≠ 'n' ∧ c ≠ '-' := by
  simp only [isDigitChar, Bool.and_eq_true, decide_eq_true_eq] at h
  have h48 := h.1
  have h57 := h.2
  refine ⟨?_, ?_, ?_, ?_, ?_, ?_, ?_, ?_⟩
  · cases hc : isJsonWs c
    · rfl
    · exfalso
      simp only [isJsonWs, Bool.or_eq_true, decide_eq_true_eq] at hc
      rcases hc with ((rfl | rfl) | rfl) | rfl <;> (revert h48 h57; decide)
  all_goals (intro hc; subst hc; revert h48 h57; decide)

theorem claimJson_ascii (e : Nat) : ∀ c ∈ claimJson e, c.toNat < 128 := by
  intro c hc
  simp only [claimJson, List.mem_append, List.mem_cons, List.not_mem_nil] at hc
  rcases hc with (h | h) | h
  · rcases h with rfl | rfl | rfl | rfl | rfl | rfl | rfl | h
    · decide
    · decide
    · decide
    · decide
    · decide
    · decide
    · decide
    · exact h.elim
  · have hd := natDigits_all_digits e c h
    simp only [isDigitChar, Bool.and_eq_true, decide_eq_true_eq] at hd
    omega
  · rcases h with rfl | rfl | rfl | rfl | rfl | rfl | rfl | rfl | rfl | rfl | rfl |
      rfl | rfl | rfl | rfl | rfl | h
    all_goals first
      | decide
      | exact h.elim

theorem parseVal_digits (f e : Nat) (rest : List Char) :
    parseVal (f + 1) (natDigits e ++ ',' :: rest)
      = some (Json.num (e : Int), ',' :: rest) := by
  obtain ⟨d, ds, hds⟩ := List.exists_cons_of_ne_nil (natDigits_ne_nil e)
  have hdd : isDigitChar d = true := natDigits_all_digits e d (by rw [hds]; simp)
  obtain ⟨hws, hq, hbr, hsq, ht, hf, hn, hm⟩ := digit_not_special d hdd
  have hcons : natDigits e ++ ',' :: rest = d :: (ds ++ ',' :: rest) := by
    rw [hds, List.cons_append]
  rw [hcons]
  have hskip : skipWs (d :: (ds ++ ',' :: rest)) = d :: (ds ++ ',' :: rest) := by
    simp [skipWs, hws]
  simp only [parseVal, hskip]
  rw [if_neg hq, if_neg hbr, if_neg hsq, if_neg ht, if_neg hf, if_neg hn]
  simp only [parseNumber, if_neg hm]
  have htake : takeDigits (d :: (ds ++ ',' :: rest)) = (natDigits e, ',' :: rest) := by
    rw [← hcons]
    exact takeDigits_digits_prefix (natDigits e) (',' :: rest)
      (natDigits_all_digits e) (by intro c hc; cases hc; decide)
  rw [htake]
  simp only [if_neg (natDigits_ne_nil e), digitsToNat_natDigits]
  rfl

theorem parseVal_claimJson (f e : Nat) :
    parseVal (f + 4) (claimJson e) = some (claimObj e, []) := by
  have hnum : parseVal (f + 2)
      (natDigits e ++
        ',' :: ['"', 'a', 'l', 'l', 'o', 'w', 'e', 'd', '"', ':', 't', 'r', 'u', 'e', '}'])
      = some (Json.num (e : Int),
        ',' :: ['"', 'a', 'l', 'l', 'o', 'w', 'e', 'd', '"', ':', 't', 'r', 'u', 'e', '}']) :=
    parseVal_digits (f + 1) e _
  have hstep : parseVal (f + 4) (claimJson e)
      = (match parseVal (f + 2)
          (natDigits e ++
            ',' :: ['"', 'a', 'l', 'l', 'o', 'w', 'e', 'd', '"', ':', 't', 'r', 'u', 'e', '}']) with
         | none => none
         | some vr =>
           match skipWs vr.2 with
           | ',' :: r4 => parseFields (f + 2) r4 [(['e', 'x', 'p'], vr.1)]
           | '}' :: r4 => some (Json.obj ((['e', 'x', 'p'], vr.1) :: []).reverse, r4)
           | _ => none) := rfl
  rw [hstep, hnum]
  rfl

theorem string_data_append (a b : String) : (a ++ b).data = a.data ++ b.data := rfl

theorem string_mk_data (s : String) : String.mk s.data = s := rfl

theorem jsonParse_claimJson (e : Nat) : jsonParse (claimJson e) = some (claimObj e) := by
  have hlen : 1 ≤ (claimJson e).length := by
    simp [claimJson]
  obtain ⟨f, hf⟩ : ∃ f, 2 * (claimJson e).length + 2 = f + 4 :=
    ⟨2 * (claimJson e).length - 2, by omega⟩
  unfold jsonParse
  rw [hf, parseVal_claimJson]
  rfl

/-- Reduce the verifier once the token is known to split into two parts. -/
theorem isValidGuardToken_parts (mac : String → String → String)
    (token secret : String) (now : Nat) (p s : List Char)
    (hsplit : splitDot token.data = [p, s]) :
    isValidGuardToken mac token secret now
      = (if s ≠ (mac secret (String.mk p)).data then false
         else
           match base64UrlDecode p with
           | none => false
           | some payloadChars =>
             match jsonParse payloadChars with
             | none => false
             | some payload =>
               if ¬ jsTruthy (getField payload allowedKey)
                   ∨ ¬ jsTruthy (getField payload expKey) then false
               else jsGeNow (getField payload expKey) now) := by
  unfold isValidGuardToken
  rw [hsplit]

/-- Evaluation of the verifier on a token produced by the mint function with
the same secret: the signature always matches, the payload always parses,
and the result reduces to the truthiness of `exp` and the expiry check. -/
theorem isValid_signGuardToken (mac : String → String → String)
    (hdot : ∀ s m, '.' ∉ (mac s m).data) (secret : String) (e now : Nat) :
    isValidGuardToken mac (signGuardToken mac secret e) secret now
      = (decide (e ≠ 0) && decide (now ≤ e)) := by
  set P := base64UrlEncode (String.mk (claimJson e)) with hP
  have hdata : (signGuardToken mac secret e).data
      = P.data ++ '.' :: (mac secret P).data := by
    show (P ++ "." ++ mac secret P).data = P.data ++ '.' :: (mac secret P).data
    rw [string_data_append, string_data_append]
    simp
  have hsplit : splitDot (signGuardToken mac secret e).data
      = [P.data, (mac secret P).data] := by
    rw [hdata]
    exact splitDot_pair _ _ (encode_no_dot _) (hdot _ _)
  rw [isValidGuardToken_parts mac _ secret now _ _ hsplit, string_mk_data]
  rw [if_neg (fun hne => hne rfl)]
  have hdec : base64UrlDecode P.data = some (claimJson e) :=
    base64UrlDecode_encode (String.mk (claimJson e)) (claimJson_ascii e)
  simp only [hdec, jsonParse_claimJson]
  have hga : getField (claimObj e) allowedKey = some (Json.bool true) := rfl
  have hge : getField (claimObj e) expKey = some (Json.num (e : Int)) := rfl
  rw [hga, hge]
  by_cases h0 : e = 0
  · subst h0
    simp [jsTruthy]
  · have h0' : (e : Int) ≠ 0 := by exact_mod_cast h0
    simp only [jsTruthy, jsGeNow, jsToNumber, h0, h0', decide_True, decide_not,
      not_false_iff, decide_eq_true_eq]
    simp [h0', h0, Nat.cast_le]

/-! ## A concrete collision-free MAC

The claims model HMAC-SHA256 as collision-free; `macModel` is a concrete
function with the properties the theorems assume of the abstract `mac`
(dot-free output, injectivity in the key for a fixed message), so those
assumptions are satisfiable and witnesses can be evaluated. -/

/-- Decimal-escape a char list: each char becomes `'z'` followed by its
code point in decimal, so the output uses only `'z'` and digits. -/
def escChars : List Char → List Char
  | [] => []
  | c :: rest => 'z' :: (natDigits c.toNat ++ escChars rest)

def macModel (secret msg : String) : String :=
  String.mk (('S' :: escChars secret.data) ++ ('M' :: escChars msg.data))

theorem escChars_chars (l : List Char) :
    ∀ c ∈ escChars l, c = 'z' ∨ isDigitChar c = true := by
  induction l with
  | nil => intro c hc; exact absurd hc (List.not_mem_nil c)
  | cons d rest ih =>
    intro c hc
    simp only [escChars, List.mem_cons, List.mem_append] at hc
    rcases hc with rfl | h | h
    · exact Or.inl rfl
    · exact Or.inr (natDigits_all_digits _ c h)
    · exact ih c h

theorem macModel_no_dot (secret msg : String) : '.' ∉ (macModel secret msg).data := by
  intro hmem
  simp only [macModel, List.mem_append, List.mem_cons] at hmem
  rcases hmem with (h | h) | (h | h)
  · exact absurd h (by decide)
  · rcases escChars_chars _ _ h with h' | h'
    · exact absurd h' (by decide)
    · exact absurd h' (by decide)
  · exact absurd h (by decide)
  · rcases escChars_chars _ _ h with h' | h'
    · exact absurd h' (by decide)
    · exact absurd h' (by decide)

def unescChars : Nat → List Char → Option (List Char)
  | 0, _ => none
  | _ + 1, [] => some []
  | fuel + 1, c :: rest =>
    if c = 'z' then
      let p := takeDigits rest
      if p.1 = [] then none
      else (unescChars fuel p.2).map (Char.ofNat (digitsToNat p.1) :: ·)
    else none

theorem length_le_escChars (l : List Char) : l.length ≤ (escChars l).length := by
  induction l with
  | nil => simp [escChars]
  | cons c rest ih =>
    simp only [escChars, List.length_cons, List.length_append]
    have := natDigits_ne_nil c.toNat
    have hpos : 0 < (natDigits c.toNat).length := by
      cases h : natDigits c.toNat with
      | nil => exact absurd h (natDigits_ne_nil _)
      | cons _ _ => simp
    omega

theorem escChars_head_not_digit (l : List Char) :
    ∀ c, (escChars l).head? = some c → isDigitChar c = false := by
  cases l with
  | nil => intro c hc; simp [escChars] at hc
  | cons d rest =>
    intro c hc
    simp only [escChars, List.head?_cons, Option.some_inj] at hc
    subst hc
    decide

theorem unescChars_escChars (l : List Char) :
    ∀ fuel, l.length < fuel → unescChars fuel (escChars l) = some l := by
  induction l with
  | nil =>
    intro fuel hf
    cases fuel with
    | zero => omega
    | succ f => rfl
  | cons c rest ih =>
    intro fuel hf
    cases fuel with
    | zero => omega
    | succ f =>
      show unescChars (f + 1) ('z' :: (natDigits c.toNat ++ escChars rest)) = _
      have htake : takeDigits (natDigits c.toNat ++ escChars rest)
          = (natDigits c.toNat, escChars rest) :=
        takeDigits_digits_prefix _ _ (natDigits_all_digits _)
          (escChars_head_not_digit rest)
      simp only [unescChars, if_pos rfl, htake]
      rw [if_neg (natDigits_ne_nil c.toNat)]
      rw [ih f (by simp at hf; omega)]
      simp [digitsToNat_natDigits, Char.ofNat_toNat]

theorem escChars_injective : Function.Injective escChars := by
  intro a b hab
  have ha := unescChars_escChars a ((escChars a).length + 1)
    (by have := length_le_escChars a; omega)
  have hb := unescChars_escChars b ((escChars b).length + 1)
    (by have := length_le_escChars b; omega)
  rw [hab] at ha
  rw [ha] at hb
  exact Option.some_inj.mp hb

theorem macModel_key_injective (s s' m : String)
    (h : macModel s m = macModel s' m) : s = s' := by
  have hdata := congrArg String.data h
  simp only [macModel] at hdata
  have hcan := List.append_left_injective ('M' :: escChars m.data) hdata
  simp only [List.cons_inj_right] at hcan
  have hinj := escChars_injective hcan
  have h2 := congrArg String.mk hinj
  rwa [string_mk_data, string_mk_data] at h2

/-! ## The classifier

`isBlockedHealthRequest` lower-cases the text and tests it against a list
of regular expressions.  The deployed pattern lists use only literal text,
`\b` word boundaries, `(…)?` optional groups, `(…|…)` alternation and the
class `[-\s]`; `Re` embeds exactly these constructs and `matchRe` is a
backtracking matcher in continuation style, with `searchAux` scanning every
start position as `RegExp.test` does (the patterns carry no flags). -/

inductive Re where
  | eps
  | str (s : String)
  | cls (cs : List Char)
  | seq (a b : Re)
  | alt (a b : Re)
  | opt (a : Re)
  | wb
deriving DecidableEq

/-- JS `\w` is `[A-Za-z0-9_]` (no Cyrillic — the Russian patterns carry no
`\b`). -/
def isWordChar (c : Char) : Bool :=
  ('a' ≤ c && c ≤ 'z') || ('A' ≤ c && c ≤ 'Z') || ('0' ≤ c && c ≤ '9') || c = '_'

def isWordOpt : Option Char → Bool
  | none => false
  | some c => isWordChar c

/-- JS `\b`: exactly one side of the position is a word character. -/
def isBoundary (prev next : Option Char) : Bool :=
  isWordOpt prev != isWordOpt next

def matchStr : List Char → Option Char → List Char →
    (List Char → Option Char → Bool) → Bool
  | [], prev, s, k => k s prev
  | _ :: _, _, [], _ => false
  | c :: cs, _, d :: rest, k => c == d && matchStr cs (some d) rest k

def matchRe : Re → Option Char → List Char → (List Char → Option Char → Bool) → Bool
  | .eps, prev, s, k => k s prev
  | .str t, prev, s, k => matchStr t.data prev s k
  | .cls _, _, [], _ => false
  | .cls cs, _, d :: rest, k => cs.contains d && k rest (some d)
  | .seq a b, prev, s, k => matchRe a prev s (fun s' p' => matchRe b p' s' k)
  | .alt a b, prev, s, k => matchRe a prev s k || matchRe b prev s k
  | .opt a, prev, s, k => matchRe a prev s k || k s prev
  | .wb, prev, s, k => isBoundary prev s.head? && k s prev

def searchAux (re : Re) : Option Char → List Char → Bool
  | prev, [] => matchRe re prev [] (fun _ _ => true)
  | prev, c :: rest =>
    matchRe re prev (c :: rest) (fun _ _ => true) || searchAux re (some c) rest

/-- `pattern.test(text)` (no flags, so matching always starts at 0). -/
def reTest (re : Re) (s : List Char) : Bool := searchAux re none s

/-- `String.prototype.toLowerCase` restricted to the alphabets the pattern
lists use (ASCII and the Cyrillic block А-Я/Ё); other characters are kept
as-is. -/
def jsToLowerChar (c : Char) : Char :=
  if 'A' ≤ c && c ≤ 'Z' then Char.ofNat (c.toNat + 32)
  else if 0x410 ≤ c.toNat && c.toNat ≤ 0x42F then Char.ofNat (c.toNat + 32)
  else if c.toNat = 0x401 then Char.ofNat 0x451
  else c

/-- `isBlockedHealthRequest` (all deployed variants share this body and
differ only in the `blockedHealthPatterns` list):
`text.toLowerCase()` then `patterns.some(p => p.test(normalized))`. -/
def isBlockedHealthRequest (patterns : List Re) (text : String) : Bool :=
  let normalized := text.data.map jsToLowerChar
  patterns.any (fun p => reTest p normalized)

/-! ### Pattern combinators mirroring the regex literals -/

/-- `/\bword\b/` -/
def wordP (s : String) : Re := .seq .wb (.seq (.str s) .wb)

/-- `/\bstem(s)?\b/` (also `/\bcalories?\b/`) -/
def wordOptS (s : String) : Re := .seq .wb (.seq (.str s) (.seq (.opt (.str "s")) .wb))

/-- a bare substring pattern (the Russian patterns carry no `\b`) -/
def sub (s : String) : Re := .str s

/-- `[-\s]` (the ASCII part of `\s`). -/
def dashWs : List Char := ['-', ' ', '\t', '\n', '\r', '\x0b', '\x0c']

/-- `/\bpre[-\s]?workout\b/`-style patterns. -/
def wordGapP (a b : String) : Re :=
  .seq .wb (.seq (.str a) (.seq (.opt (.cls dashWs)) (.seq (.str b) .wb)))

/-! ### The three deployed pattern tiers, in source order -/

/-- `blockedHealthPatterns` of `src/netlify/functions/realtime-guard.ts`
(lines 19–147), shared verbatim by `src/api/realtime/guard.ts` (first
variant) and `src/api/realtime/session.ts` (third variant): the broad tier
(medical + symptoms + nutrition). -/
def broadPatterns : List Re :=
  [wordP "health",
   wordP "medical",
   wordP "medicine",
   wordP "medication",
   wordOptS "drug",
   wordP "pharmacy",
   .seq .wb (.seq (.str "pharmac") (.seq (.alt (.str "y") (.str "ist")) .wb)),
   wordOptS "prescription",
   .seq .wb (.seq (.str "prescribe") (.seq (.opt (.alt (.str "d") (.str "s"))) .wb)),
   .seq .wb (.seq (.str "diagnos")
     (.seq (.alt (.str "e") (.alt (.str "is") (.alt (.str "ed") (.str "ing")))) .wb)),
   wordOptS "symptom",
   wordOptS "treatment",
   wordP "therapy",
   wordOptS "side effect",
   wordOptS "contraindication",
   .alt (.seq .wb (.str "allergy")) (.seq (.str "allergic") .wb),
   wordOptS "infection",
   wordP "fever",
   wordP "headache",
   wordP "pain",
   wordP "chest pain",
   wordP "blood pressure",
   wordP "hypertension",
   wordP "hypotension",
   wordP "heart rate",
   wordP "pulse",
   wordP "glucose",
   .seq .wb (.seq (.str "diabet") (.seq (.alt (.str "es") (.str "ic")) .wb)),
   wordP "insulin",
   wordP "cholesterol",
   wordOptS "condition",
   wordP "mental health",
   wordP "depression",
   wordP "anxiety",
   wordP "therapist",
   wordP "counseling",
   wordP "doctor",
   wordP "physician",
   wordP "clinic",
   wordP "hospital",
   wordP "ambulance",
   wordP "er",
   wordP "emergency",
   wordP "diet",
   wordOptS "calorie",
   wordP "caloric",
   wordOptS "macro",
   wordP "nutrition",
   wordOptS "meal",
   wordP "meal plan",
   wordP "meal planning",
   wordP "protein",
   wordOptS "carb",
   wordP "fat",
   wordP "weight loss",
   wordP "lose weight",
   wordP "gain muscle",
   wordP "bmi",
   wordP "body fat",
   wordP "kcal",
   wordOptS "kilocalorie",
   wordP "metabolism",
   wordP "metabolic",
   wordP "bulking",
   wordP "cutting",
   wordP "intermittent fasting",
   wordP "fasting",
   wordOptS "supplement",
   wordP "protein powder",
   wordP "creatine",
   wordGapP "pre" "workout",
   wordGapP "post" "workout",
   wordOptS "vitamin",
   wordOptS "mineral",
   wordGapP "omega" "3",
   wordOptS "probiotic",
   wordP "deficiency",
   wordP "deficient",
   sub "диет",
   sub "диета",
   sub "калор",
   sub "калори",
   sub "макрос",
   sub "питан",
   sub "план питания",
   sub "белок",
   sub "углевод",
   sub "жир",
   sub "похуд",
   sub "похудеть",
   .seq (.str "снижен") (.seq (.alt (.str "ие") (.str "ия")) (.str " веса")),
   sub "сбросить вес",
   sub "набрать масс",
   sub "набор масс",
   sub "имт",
   sub "индекс массы тела",
   sub "ккал",
   sub "килокал",
   .seq (.str "калори") (.alt (.str "я") (.str "и")),
   sub "метабол",
   sub "добавк",
   sub "витамин",
   sub "минерал",
   sub "лекарств",
   sub "медицин",
   sub "медикамент",
   sub "симптом",
   sub "диагноз",
   sub "лечение",
   sub "терапи",
   sub "побочн",
   sub "противопоказ",
   sub "давление",
   sub "температур",
   sub "жар",
   sub "боль",
   sub "грудн",
   sub "сердц",
   sub "пульс",
   sub "инсулин",
   sub "диабет",
   sub "холестерин",
   sub "врач",
   sub "клиник",
   sub "больниц",
   sub "скорая",
   sub "экстренн"]

/-- `blockedHealthPatterns` of `src/unnamed/part_003` (lines 20–54), shared
verbatim by the second/third variants of `src/api/realtime/guard.ts` and by
`src/unnamed/part_004`: the narrow diet/nutrition-only tier. -/
def narrowPatterns : List Re :=
  [wordP "diet",
   wordOptS "calorie",
   wordP "caloric",
   wordOptS "macro",
   wordP "nutrition",
   wordP "meal plan",
   wordP "protein",
   wordOptS "carb",
   wordP "fat",
   wordP "weight loss",
   wordP "lose weight",
   wordP "gain muscle",
   wordP "bmi",
   wordP "body fat",
   wordP "kcal",
   wordOptS "supplement",
   wordOptS "vitamin",
   sub "диет",
   sub "калор",
   sub "макрос",
   sub "питан",
   sub "план питания",
   sub "белок",
   sub "углевод",
   sub "жир",
   sub "похуд",
   sub "сбросить вес",
   sub "набрать масс",
   sub "имт",
   sub "индекс массы тела",
   sub "ккал",
   sub "добавк",
   sub "витамин"]

/-- `blockedHealthPatterns` of `src/unnamed/part_000` (lines 23–177), the
voice-chat endpoint: the broad tier extended with symptom and wellness
vocabulary in both languages. -/
def voicePatterns : List Re :=
  [wordP "health",
   wordP "medical",
   wordP "medicine",
   wordP "medication",
   wordOptS "drug",
   wordP "pharmacy",
   .seq .wb (.seq (.str "pharmac") (.seq (.alt (.str "y") (.str "ist")) .wb)),
   wordOptS "prescription",
   .seq .wb (.seq (.str "prescribe") (.seq (.opt (.alt (.str "d") (.str "s"))) .wb)),
   .seq .wb (.seq (.str "diagnos")
     (.seq (.alt (.str "e") (.alt (.str "is") (.alt (.str "ed") (.str "ing")))) .wb)),
   wordOptS "symptom",
   wordOptS "treatment",
   wordP "therapy",
   wordOptS "side effect",
   wordOptS "contraindication",
   .alt (.seq .wb (.str "allergy")) (.seq (.str "allergic") .wb),
   wordOptS "infection",
   wordP "fever",
   wordP "dizziness",
   wordP "nausea",
   wordP "fatigue",
   wordP "stress",
   wordP "headache",
   wordP "pain",
   wordP "back pain",
   wordP "chest pain",
   wordP "blood pressure",
   wordP "hypertension",
   wordP "hypotension",
   wordP "heart rate",
   wordP "pulse",
   wordP "glucose",
   .seq .wb (.seq (.str "diabet") (.seq (.alt (.str "es") (.str "ic")) .wb)),
   wordP "insulin",
   wordP "cholesterol",
   wordOptS "condition",
   wordP "mental health",
   wordP "depression",
   wordP "anxiety",
   wordP "therapist",
   wordP "counseling",
   wordP "doctor",
   wordP "physician",
   wordP "clinic",
   wordP "hospital",
   wordP "ambulance",
   wordP "er",
   wordP "emergency",
   wordP "diet",
   wordOptS "calorie",
   wordP "caloric",
   wordOptS "macro",
   wordP "nutrition",
   wordOptS "meal",
   wordP "meal plan",
   wordP "meal planning",
   wordP "protein",
   wordOptS "carb",
   wordP "fat",
   wordP "weight loss",
   wordP "lose weight",
   wordP "gain muscle",
   wordP "bmi",
   wordP "body fat",
   wordP "kcal",
   wordOptS "kilocalorie",
   wordP "metabolism",
   wordP "metabolic",
   wordP "bulking",
   wordP "cutting",
   wordP "intermittent fasting",
   wordP "fasting",
   wordOptS "supplement",
   wordP "protein powder",
   wordP "creatine",
   wordGapP "pre" "workout",
   wordGapP "post" "workout",
   wordOptS "vitamin",
   wordOptS "mineral",
   wordGapP "omega" "3",
   wordOptS "probiotic",
   wordP "deficiency",
   wordP "deficient",
   wordP "exercise",
   wordP "workout",
   .seq .wb (.seq (.str "stretch") (.seq (.opt (.str "ing")) .wb)),
   wordP "posture",
   wordP "recovery",
   wordP "sleep",
   wordP "hydration",
   wordP "wellness",
   sub "диет",
   sub "диета",
   sub "калор",
   sub "калори",
   sub "макрос",
   sub "питан",
   sub "план питания",
   sub "белок",
   sub "углевод",
   sub "жир",
   sub "похуд",
   sub "похудеть",
   .seq (.str "снижен") (.seq (.alt (.str "ие") (.str "ия")) (.str " веса")),
   sub "сбросить вес",
   sub "набрать масс",
   sub "набор масс",
   sub "имт",
   sub "индекс массы тела",
   sub "ккал",
   sub "килокал",
   .seq (.str "калори") (.alt (.str "я") (.str "и")),
   sub "метабол",
   sub "добавк",
   sub "витамин",
   sub "минерал",
   sub "лекарств",
   sub "медицин",
   sub "медикамент",
   sub "симптом",
   sub "диагноз",
   sub "лечение",
   sub "терапи",
   sub "побочн",
   sub "противопоказ",
   sub "давление",
   sub "температур",
   sub "головокруж",
   sub "тошнот",
   sub "усталост",
   sub "стресс",
   sub "жар",
   sub "боль",
   sub "спин",
   sub "грудн",
   sub "сердц",
   sub "пульс",
   sub "инсулин",
   sub "диабет",
   sub "холестерин",
   sub "врач",
   sub "клиник",
   sub "больниц",
   sub "скорая",
   sub "экстренн",
   sub "сон",
   sub "гидратац",
   sub "вода",
   sub "упражнен",
   sub "растяж",
   sub "поза",
   sub "восстановлен",
   sub "фитнес"]

/-! ### Matcher completeness

A text that contains a blocklisted term, separated by spaces from arbitrary
surrounding text, is blocked.  `termOkB` checks (computably) that a pattern
matches exactly the term in a one-space context; the extension lemmas show
such a match also succeeds when the trailing space is followed by anything,
and the search lemma lifts a match at any position to `RegExp.test`. -/

theorem matchStr_nil_false (cs : List Char) (prev : Option Char)
    (k : List Char → Option Char → Bool) (hk : ∀ p, k [] p = false) :
    matchStr cs prev [] k = false := by
  cases cs with
  | nil => exact hk prev
  | cons c cs => rfl

theorem matchRe_nil_false (re : Re) : ∀ (prev : Option Char)
    (k : List Char → Option Char → Bool),
    (∀ p, k [] p = false) → matchRe re prev [] k = false := by
  induction re with
  | eps => intro prev k hk; exact hk prev
  | str t => intro prev k hk; exact matchStr_nil_false t.data prev k hk
  | cls cs => intro prev k hk; rfl
  | seq a b iha ihb =>
    intro prev k hk
    exact iha prev _ (fun p => ihb p k hk)
  | alt a b iha ihb =>
    intro prev k hk
    show (matchRe a prev [] k || matchRe b prev [] k) = false
    rw [iha prev k hk, ihb prev k hk]
    rfl
  | opt a iha =>
    intro prev k hk
    show (matchRe a prev [] k || k [] prev) = false
    rw [iha prev k hk, hk prev]
    rfl
  | wb =>
    intro prev k hk
    show (isBoundary prev ([] : List Char).head? && k [] prev) = false
    rw [hk prev]
    exact Bool.and_false _

theorem matchStr_extend (post : List Char) :
    ∀ (cs v : List Char) (prev : Option Char)
      (k1 k2 : List Char → Option Char → Bool),
      (∀ u p, k1 (u ++ [' ']) p = true → k2 (u ++ ' ' :: post) p = true) →
      (∀ p, k1 [] p = false) →
      matchStr cs prev (v ++ [' ']) k1 = true →
      matchStr cs prev (v ++ ' ' :: post) k2 = true := by
  intro cs
  induction cs with
  | nil =>
    intro v prev k1 k2 hgood _ h
    exact hgood v prev h
  | cons c cs ih =>
    intro v prev k1 k2 hgood hnil h
    cases v with
    | nil =>
      exfalso
      rw [show (([] : List Char) ++ [' ']) = [' '] from rfl] at h
      rw [show matchStr (c :: cs) prev [' '] k1
          = (c == ' ' && matchStr cs (some ' ') [] k1) from rfl] at h
      rw [matchStr_nil_false cs (some ' ') k1 hnil, Bool.and_false] at h
      exact Bool.false_ne_true h
    | cons d v' =>
      rw [show ((d :: v') ++ [' ']) = d :: (v' ++ [' ']) from rfl] at h
      rw [show matchStr (c :: cs) prev (d :: (v' ++ [' '])) k1
          = (c == d && matchStr cs (some d) (v' ++ [' ']) k1) from rfl] at h
      rw [Bool.and_eq_true] at h
      obtain ⟨hcd, hrest⟩ := h
      show (c == d && matchStr cs (some d) (v' ++ ' ' :: post) k2) = true
      rw [hcd, ih v' (some d) k1 k2 hgood hnil hrest]
      rfl

theorem matchRe_extend (post : List Char) (re : Re) :
    ∀ (v : List Char) (prev : Option Char)
      (k1 k2 : List Char → Option Char → Bool),
      (∀ u p, k1 (u ++ [' ']) p = true → k2 (u ++ ' ' :: post) p = true) →
      (∀ p, k1 [] p = false) →
      matchRe re prev (v ++ [' ']) k1 = true →
      matchRe re prev (v ++ ' ' :: post) k2 = true := by
  induction re with
  | eps =>
    intro v prev k1 k2 hgood _ h
    exact hgood v prev h
  | str t =>
    intro v prev k1 k2 hgood hnil h
    exact matchStr_extend post t.data v prev k1 k2 hgood hnil h
  | cls cs =>
    intro v prev k1 k2 hgood hnil h
    cases v with
    | nil =>
      exfalso
      rw [show (([] : List Char) ++ [' ']) = [' '] from rfl] at h
      rw [show matchRe (.cls cs) prev [' '] k1
          = (cs.contains ' ' && k1 [] (some ' ')) from rfl] at h
      rw [hnil (some ' '), Bool.and_false] at h
      exact Bool.false_ne_true h
    | cons d v' =>
      rw [show ((d :: v') ++ [' ']) = d :: (v' ++ [' ']) from rfl] at h
      rw [show matchRe (.cls cs) prev (d :: (v' ++ [' '])) k1
          = (cs.contains d && k1 (v' ++ [' ']) (some d)) from rfl] at h
      rw [Bool.and_eq_true] at h
      obtain ⟨hcd, hrest⟩ := h
      show (cs.contains d && k2 (v' ++ ' ' :: post) (some d)) = true
      rw [hcd, hgood v' (some d) hrest]
      rfl
  | seq a b iha ihb =>
    intro v prev k1 k2 hgood hnil h
    exact iha v prev _ _ (fun u p hu => ihb u p k1 k2 hgood hnil hu)
      (fun p => matchRe_nil_false b p k1 hnil) h
  | alt a b iha ihb =>
    intro v prev k1 k2 hgood hnil h
    rw [show matchRe (Re.alt a b) prev (v ++ [' ']) k1
        = (matchRe a prev (v ++ [' ']) k1 || matchRe b prev (v ++ [' ']) k1) from rfl,
      Bool.or_eq_true] at h
    show (matchRe a prev (v ++ ' ' :: post) k2 || matchRe b prev (v ++ ' ' :: post) k2) = true
    rw [Bool.or_eq_true]
    rcases h with h | h
    · exact Or.inl (iha v prev k1 k2 hgood hnil h)
    · exact Or.inr (ihb v prev k1 k2 hgood hnil h)
  | opt a iha =>
    intro v prev k1 k2 hgood hnil h
    rw [show matchRe (Re.opt a) prev (v ++ [' ']) k1
        = (matchRe a prev (v ++ [' ']) k1 || k1 (v ++ [' ']) prev) from rfl,
      Bool.or_eq_true] at h
    show (matchRe a prev (v ++ ' ' :: post) k2 || k2 (v ++ ' ' :: post) prev) = true
    rw [Bool.or_eq_true]
    rcases h with h | h
    · exact Or.inl (iha v prev k1 k2 hgood hnil h)
    · exact Or.inr (hgood v prev h)
  | wb =>
    intro v prev k1 k2 hgood _ h
    rw [show matchRe Re.wb prev (v ++ [' ']) k1
        = (isBoundary prev (v ++ [' ']).head? && k1 (v ++ [' ']) prev) from rfl,
      Bool.and_eq_true] at h
    obtain ⟨hb, hk⟩ := h
    have hhead : (v ++ ' ' :: post).head? = (v ++ [' ']).head? := by
      cases v <;> rfl
    show (isBoundary prev (v ++ ' ' :: post).head? && k2 (v ++ ' ' :: post) prev) = true
    rw [hhead, hb, hgood v prev hk]
    rfl

def lastOpt (prev : Option Char) (xs : List Char) : Option Char :=
  xs.foldl (fun _ c => some c) prev

theorem searchAux_of_matchAt (re : Re) :
    ∀ (xs : List Char) (prev : Option Char) (s : List Char),
      matchRe re (lastOpt prev xs) s (fun _ _ => true) = true →
      searchAux re prev (xs ++ s) = true := by
  intro xs
  induction xs with
  | nil =>
    intro prev s h
    cases s with
    | nil => exact h
    | cons c rest =>
      show (matchRe re prev (c :: rest) (fun _ _ => true)
          || searchAux re (some c) rest) = true
      rw [show lastOpt prev [] = prev from rfl] at h
      rw [h]
      rfl
  | cons c xs ih =>
    intro prev s h
    show (matchRe re prev (c :: (xs ++ s)) (fun _ _ => true)
        || searchAux re (some c) (xs ++ s)) = true
    rw [ih (some c) s h, Bool.or_true]

/-- A pattern matches exactly this term when it sits between spaces. -/
def termOkB (p : Re) (t : List Char) : Bool :=
  matchRe p (some ' ') (t ++ [' ']) (fun s _ => s == [' '])

def coveredBy (ps : List Re) (t : String) : Bool :=
  ps.any (fun p => termOkB p t.data)

/-- Classifier completeness relative to a term list: if every term of
`terms` is covered by some pattern, then any text that contains a term
(up to letter case) between spaces is blocked, whatever surrounds it. -/
theorem isBlocked_of_term (patterns : List Re) (terms : List String)
    (hcov : terms.all (fun t => coveredBy patterns t) = true)
    (pre t post : String)
    (hmem : String.mk (t.data.map jsToLowerChar) ∈ terms) :
    isBlockedHealthRequest patterns (pre ++ " " ++ t ++ " " ++ post) = true := by
  have hcovt : coveredBy patterns (String.mk (t.data.map jsToLowerChar)) = true :=
    (List.all_eq_true.mp hcov) _ hmem
  obtain ⟨p, hp, hok⟩ := List.any_eq_true.mp hcovt
  have hmatch : matchRe p (some ' ')
      ((t.data.map jsToLowerChar) ++ ' ' :: (post.data.map jsToLowerChar))
      (fun _ _ => true) = true := by
    refine matchRe_extend _ p _ (some ' ') _ _ (fun u q _ => rfl) (fun q => rfl) hok
  have hsp : jsToLowerChar ' ' = ' ' := by decide
  have hdata : (pre ++ " " ++ t ++ " " ++ post).data.map jsToLowerChar
      = ((pre.data.map jsToLowerChar) ++ [' '])
        ++ ((t.data.map jsToLowerChar) ++ ' ' :: (post.data.map jsToLowerChar)) := by
    rw [string_data_append, string_data_append, string_data_append, string_data_append]
    show ((pre.data ++ [' '] ++ t.data ++ [' '] ++ post.data).map jsToLowerChar) = _
    simp [List.map_append, hsp, List.append_assoc]
  show patterns.any
      (fun q => reTest q ((pre ++ " " ++ t ++ " " ++ post).data.map jsToLowerChar)) = true
  rw [hdata]
  refine List.any_eq_true.mpr ⟨p, hp, ?_⟩
  show searchAux p none _ = true
  apply searchAux_of_matchAt
  have hlast : lastOpt none ((pre.data.map jsToLowerChar) ++ [' ']) = some ' ' := by
    unfold lastOpt
    rw [List.foldl_append]
    rfl
  rw [hlast]
  exact hmatch

/-! ### Canonical blocklisted terms, one per pattern -/

def broadTerms : List String :=
  ["health", "medical", "medicine", "medication", "drug", "pharmacy",
   "pharmacy", "prescription", "prescribe", "diagnose", "symptom",
   "treatment", "therapy", "side effect", "contraindication", "allergy",
   "infection", "fever", "headache", "pain", "chest pain", "blood pressure",
   "hypertension", "hypotension", "heart rate", "pulse", "glucose",
   "diabetes", "insulin", "cholesterol", "condition", "mental health",
   "depression", "anxiety", "therapist", "counseling", "doctor", "physician",
   "clinic", "hospital", "ambulance", "er", "emergency", "diet", "calorie",
   "caloric", "macro", "nutrition", "meal", "meal plan", "meal planning",
   "protein", "carb", "fat", "weight loss", "lose weight", "gain muscle",
   "bmi", "body fat", "kcal", "kilocalorie", "metabolism", "metabolic",
   "bulking", "cutting", "intermittent fasting", "fasting", "supplement",
   "protein powder", "creatine", "pre-workout", "post-workout", "vitamin",
   "mineral", "omega-3", "probiotic", "deficiency", "deficient",
   "диет", "диета", "калор", "калори", "макрос", "питан", "план питания",
   "белок", "углевод", "жир", "похуд", "похудеть", "снижение веса",
   "сбросить вес", "набрать масс", "набор масс", "имт",
   "индекс массы тела", "ккал", "килокал", "калория", "метабол", "добавк",
   "витамин", "минерал", "лекарств", "медицин", "медикамент", "симптом",
   "диагноз", "лечение", "терапи", "побочн", "противопоказ", "давление",
   "температур", "жар", "боль", "грудн", "сердц", "пульс", "инсулин",
   "диабет", "холестерин", "врач", "клиник", "больниц", "скорая",
   "экстренн"]

def narrowTerms : List String :=
  ["diet", "calorie", "caloric", "macro", "nutrition", "meal plan",
   "protein", "carb", "fat", "weight loss", "lose weight", "gain muscle",
   "bmi", "body fat", "kcal", "supplement", "vitamin",
   "диет", "калор", "макрос", "питан", "план питания", "белок", "углевод",
   "жир", "похуд", "сбросить вес", "набрать масс", "имт",
   "индекс массы тела", "ккал", "добавк", "витамин"]

def voiceTerms : List String :=
  broadTerms ++
    ["dizziness", "nausea", "fatigue", "stress", "back pain", "exercise",
     "workout", "stretch", "posture", "recovery", "sleep", "hydration",
     "wellness",
     "головокруж", "тошнот", "усталост", "стресс", "спин", "сон",
     "гидратац", "вода", "упражнен", "растяж", "поза", "восстановлен",
     "фитнес"]

/-! ## Endpoint orchestration

The handlers are embedded as pure outcome functions: the request data, the
environment and the collaborator responses are inputs, and the outcome
names the response the handler commits to (upstream calls that the handler
merely forwards are collapsed into the corresponding outcome
constructor). -/

/-- JS `String.prototype.trim` (ASCII whitespace model, executable). -/
def isTrimWs (c : Char) : Bool :=
  c = ' ' || c = '\t' || c = '\n' || c = '\r' || c = '\x0b' || c = '\x0c'

def jsTrim (s : String) : String :=
  String.mk (((s.data.dropWhile isTrimWs).reverse.dropWhile isTrimWs).reverse)

structure SessionEnv where
  apiKey : Option String := none
  guardSecret : Option String := none
  envModel : Option String := none

structure SessionBody where
  model : Option String := none
  user_text : Option String := none
  text : Option String := none
  prompt : Option String := none
  query : Option String := none
  transcript : Option String := none
  guard_token : Option String := none
  /-- Properties of the parsed JSON body under key names other than the
  seven typed fields above.  `JSON.parse` keeps them on the object, but the
  handler destructures only the typed fields, so they are carried here and
  never consulted (see `C10_alias_shadowing`). -/
  extra : List (String × String) := []

inductive SessionOutcome where
  | corsPreflight
  | methodNotAllowed
  | missingApiKey
  | missingGuardSecret
  /-- 403, `{ error: 'Health-related requests are not supported.', blocked: true }` -/
  | contentBlocked
  /-- 403, `{ error: 'Guard verification failed.', blocked: true }` -/
  | guardFailed
  /-- proceeds to the realtime-session call with the resolved model -/
  | createSession (model : String)
deriving DecidableEq

/-- The nullish-coalescing chain
`payload.user_text ?? payload.text ?? payload.prompt ?? payload.query ??
payload.transcript` (an empty string is not nullish and stops the chain). -/
def extractUserText (b : SessionBody) : Option String :=
  b.user_text.or (b.text.or (b.prompt.or (b.query.or b.transcript)))

/-- `handler` of the session variant of `src/api/realtime/session.ts`
(lines 422–542) and `src/unnamed/part_003`; the two differ only in the
pattern tier, so it is a parameter.  The body models
`parseBody(event.body) || {}` as the already-parsed optional record (this
variant does not catch `JSON.parse` exceptions; a throwing body is outside
the model).  Checks in source order: OPTIONS, method, `OPENAI_API_KEY`,
`GUARD_TOKEN_SECRET`, content re-check on the extracted user text, then
guard-token verification. -/
def sessionHandler (patterns : List Re) (mac : String → String → String)
    (env : SessionEnv) (httpMethod : String) (body : Option SessionBody)
    (now : Nat) : SessionOutcome :=
  if httpMethod = "OPTIONS" then .corsPreflight
  else if httpMethod ≠ "POST" then .methodNotAllowed
  else if ¬ jsPresent env.apiKey then .missingApiKey
  else if ¬ jsPresent env.guardSecret then .missingGuardSecret
  else
    let payload := body.getD {}
    let userText := extractUserText payload
    if (match userText with
        | some t => (t != "") && isBlockedHealthRequest patterns t
        | none => false) then .contentBlocked
    else if ¬ ((match payload.guard_token with
        | some tok => (tok != "")
            && isValidGuardToken mac tok (env.guardSecret.getD "") now
        | none => false) = true) then .guardFailed
    else
      .createSession (jsOrStr payload.model
        (jsOrStr env.envModel "gpt-4o-realtime-preview"))

structure GuardBody where
  audio_base64 : Option String := none
  mime_type : Option String := none
  model : Option String := none
  transcript : Option String := none
  text : Option String := none

/-- Result of `parseBody(event.body)` inside its `try`: `bad` models a
thrown `JSON.parse` error, `ok none` an absent body. -/
inductive BodyParse (β : Type) where
  | bad
  | ok (b : Option β)

/-- The Transcription Collaborator's reply. -/
inductive TranscribeResult where
  | httpError (status : Nat) (body : String)
  | ok (text : Option String)

inductive GuardOutcome where
  | corsPreflight
  | methodNotAllowed
  | missingApiKey
  | missingGuardSecret
  /-- 400, `{ error: 'Invalid JSON body' }` -/
  | invalidJson
  /-- upstream status/body forwarded verbatim -/
  | upstreamFail (status : Nat) (body : String)
  /-- 403, `{ error: 'Health-related requests are not supported.', blocked: true, transcript }` -/
  | blocked (transcript : String)
  /-- 200, `{ allowed: true, transcript, guard_token, expires_at }` -/
  | allowedToken (token : String) (transcript : String) (expiresAt : Nat)
deriving DecidableEq

def guardTokenTtlSeconds : Nat := 120

/-- Tail of the guard handler after the transcript is fixed:
`const blocked = transcript ? isBlockedHealthRequest(transcript) : false`,
then either the 403 block or minting `signGuardToken(guardSecret, now+120)`. -/
def guardFinish (patterns : List Re) (mac : String → String → String)
    (env : SessionEnv) (transcript : String) (now : Nat) : GuardOutcome :=
  let blocked := (transcript != "") && isBlockedHealthRequest patterns transcript
  if blocked then .blocked transcript
  else
    .allowedToken
      (signGuardToken mac (env.guardSecret.getD "") (now + guardTokenTtlSeconds))
      transcript (now + guardTokenTtlSeconds)

/-- `handler` of `src/netlify/functions/realtime-guard.ts` (lines 184–305)
and `src/unnamed/part_004`; the `src/api/realtime/guard.ts` default-export
variants share the same tail and differ upstream only in treating a JSON
parse error as an empty payload instead of a 400.  The transcript is the
trimmed `transcript ?? text ?? ''` fallback, replaced by the collaborator's
`data.text?.trim() || ''` when `audio_base64` is (truthily) present. -/
def guardHandler (patterns : List Re) (mac : String → String → String)
    (env : SessionEnv) (httpMethod : String) (body : BodyParse GuardBody)
    (transcription : TranscribeResult) (now : Nat) : GuardOutcome :=
  if httpMethod = "OPTIONS" then .corsPreflight
  else if httpMethod ≠ "POST" then .methodNotAllowed
  else if ¬ jsPresent env.apiKey then .missingApiKey
  else if ¬ jsPresent env.guardSecret then .missingGuardSecret
  else
    match body with
    | .bad => .invalidJson
    | .ok b0 =>
      let payload := b0.getD {}
      let textFallback := jsTrim ((payload.transcript.or payload.text).getD "")
      if jsPresent payload.audio_base64 then
        match transcription with
        | .httpError st b => .upstreamFail st b
        | .ok t =>
          guardFinish patterns mac env (jsOrStr (t.map jsTrim) "") now
      else guardFinish patterns mac env textFallback now

structure VoiceBody where
  audio_base64 : Option String := none
  mime_type : Option String := none
  model : Option String := none
  voice : Option String := none

inductive VoiceOutcome where
  | missingApiKey
  /-- 400, `{ error: 'Invalid JSON body' }` -/
  | invalidJson
  /-- 400, `{ error: 'audio_base64 is required' }` -/
  | audioRequired
  /-- upstream status/body forwarded verbatim -/
  | upstreamFail (status : Nat) (body : String)
  /-- 400, `{ error: 'Empty transcript' }` -/
  | emptyTranscript
  /-- 200, `{ response: refusalText, blocked: true, transcript }` -/
  | blockedReply (transcript : String)
  /-- continues into the chat-completion and speech-synthesis calls -/
  | proceedChat (transcript : String)
deriving DecidableEq

/-- `handler` of `src/unnamed/part_000` (the voice-chat endpoint): api key,
JSON body, required `audio_base64`, transcription; then
`data.text?.trim() || ''`, the `Empty transcript` 400, the classifier gate
(broadest tier) and otherwise the chat flow. -/
def voiceChatHandler (env : SessionEnv) (body : BodyParse VoiceBody)
    (transcription : TranscribeResult) : VoiceOutcome :=
  if ¬ jsPresent env.apiKey then .missingApiKey
  else
    match body with
    | .bad => .invalidJson
    | .ok b0 =>
      let payload := b0.getD {}
      if ¬ jsPresent payload.audio_base64 then .audioRequired
      else
        match transcription with
        | .httpError st b => .upstreamFail st b
        | .ok t =>
          let transcript := jsOrStr (t.map jsTrim) ""
          if transcript = "" then .emptyTranscript
          else if isBlockedHealthRequest voicePatterns transcript then
            .blockedReply transcript
          else .proceedChat transcript

/-! ## The claims -/

set_option maxRecDepth 40000

/-- A helper for C3: the minted token splits into its payload and signature
segments (both are dot-free base64url text). -/
theorem signGuardToken_split (mac : String → String → String) (secret : String)
    (e : Nat)
    (hdot : '.' ∉ (mac secret (base64UrlEncode (String.mk (claimJson e)))).data) :
    splitDot (signGuardToken mac secret e).data
      = [(base64UrlEncode (String.mk (claimJson e))).data,
         (mac secret (base64UrlEncode (String.mk (claimJson e)))).data] := by
  set P := base64UrlEncode (String.mk (claimJson e)) with hP
  have hdata : (signGuardToken mac secret e).data
      = P.data ++ '.' :: (mac secret P).data := by
    show (P ++ "." ++ mac secret P).data = P.data ++ '.' :: (mac secret P).data
    rw [string_data_append, string_data_append]
    simp
  rw [hdata]
  exact splitDot_pair _ _ (encode_no_dot _) hdot

/-- C1 (confirmed): round-trip law.  For every secret and every claim with
`allowed == true` (the only claims `signGuardToken` mints) whose expiry is
strictly in the future at verification time, verifying the minted token
with the same secret returns `true`.  `mac` abstracts HMAC-SHA256; the only
assumption is that its (base64url) output text never contains a period. -/
theorem C1_roundtrip (mac : String → String → String)
    (hdot : ∀ s m, '.' ∉ (mac s m).data) (secret : String)
    (expiresAt now : Nat) (hfuture : now < expiresAt) :
    isValidGuardToken mac (signGuardToken mac secret expiresAt) secret now = true := by
  rw [isValid_signGuardToken mac hdot]
  have h1 : expiresAt ≠ 0 := by omega
  have h2 : now ≤ expiresAt := by omega
  simp [h1, h2]

theorem C1_roundtrip_witness :
    isValidGuardToken macModel (signGuardToken macModel "s3cret" 17) "s3cret" 5
      = true :=
  C1_roundtrip macModel macModel_no_dot "s3cret" 17 5 (by omega)

/-- C3 (confirmed): secret-mismatch resistance.  With HMAC modelled as
collision-free across keys (`hinj`), verifying a minted token with any
other secret returns `false`: the recomputed signature differs, so the
comparison fails closed. -/
theorem C3_secret_mismatch (mac : String → String → String)
    (hdot : ∀ s m, '.' ∉ (mac s m).data)
    (hinj : ∀ s s' m, mac s m = mac s' m → s = s')
    (secret secret2 : String) (hne : secret2 ≠ secret) (expiresAt now : Nat) :
    isValidGuardToken mac (signGuardToken mac secret expiresAt) secret2 now
      = false := by
  have hsplit := signGuardToken_split mac secret expiresAt (hdot _ _)
  rw [isValidGuardToken_parts mac _ secret2 now _ _ hsplit, string_mk_data]
  rw [if_pos]
  intro heq
  have heq' := congrArg String.mk heq
  rw [string_mk_data, string_mk_data] at heq'
  exact hne ((hinj secret secret2 _ heq').symm)

theorem C3_secret_mismatch_witness :
    isValidGuardToken macModel (signGuardToken macModel "s3cret" 120) "wrong" 50
      = false :=
  C3_secret_mismatch macModel macModel_no_dot macModel_key_injective
    "s3cret" "wrong" (by decide) 120 50

/-- C7 (corrected) — counterexample to the claim as stated: the token
minted for expiry `0` is correctly signed with `allowed: true`, and the
clock `now = 0` equals its expiry second, yet verification returns `false`:
the verifier's truthiness test `!payload.exp` rejects the (falsy) expiry
value `0` before the `>=` comparison is reached. -/
theorem C7_counterexample :
    isValidGuardToken macModel (signGuardToken macModel "s3cret" 0) "s3cret" 0
      = false := by decide

/-- C7 (corrected), amended: for every token minted for a nonzero expiry
timestamp (every real unix-second timestamp), verification at the exact
expiry second succeeds (the comparison is `>=`, an inclusive boundary) and
verification one second later fails. -/
theorem C7_expiry_boundary (mac : String → String → String)
    (hdot : ∀ s m, '.' ∉ (mac s m).data) (secret : String) (e : Nat)
    (hpos : 1 ≤ e) :
    isValidGuardToken mac (signGuardToken mac secret e) secret e = true
    ∧ isValidGuardToken mac (signGuardToken mac secret e) secret (e + 1)
        = false := by
  constructor
  · rw [isValid_signGuardToken mac hdot]
    have h1 : e ≠ 0 := by omega
    simp [h1]
  · rw [isValid_signGuardToken mac hdot]
    have h2 : ¬(e + 1 ≤ e) := by omega
    simp [h2]

theorem C7_expiry_boundary_witness :
    isValidGuardToken macModel (signGuardToken macModel "s3cret" 120) "s3cret" 120
        = true
    ∧ isValidGuardToken macModel (signGuardToken macModel "s3cret" 120) "s3cret" 121
        = false :=
  C7_expiry_boundary macModel macModel_no_dot "s3cret" 120 (by omega)

/-- C9 (confirmed): tier monotonicity.  Every pattern of the narrow
(diet/nutrition-only) tier occurs in the broad tier and in the voice-chat
tier, so any text the narrow classifier blocks is also blocked by both
broader classifiers. -/
theorem C9_tier_monotone (text : String)
    (hnarrow : isBlockedHealthRequest narrowPatterns text = true) :
    isBlockedHealthRequest broadPatterns text = true
    ∧ isBlockedHealthRequest voicePatterns text = true := by
  have hsub1 : ∀ p ∈ narrowPatterns, p ∈ broadPatterns := by decide
  have hsub2 : ∀ p ∈ narrowPatterns, p ∈ voicePatterns := by decide
  obtain ⟨p, hp, htest⟩ := List.any_eq_true.mp hnarrow
  constructor
  · exact List.any_eq_true.mpr ⟨p, hsub1 p hp, htest⟩
  · exact List.any_eq_true.mpr ⟨p, hsub2 p hp, htest⟩

theorem C9_tier_monotone_witness :
    isBlockedHealthRequest broadPatterns "switch to a diet now" = true
    ∧ isBlockedHealthRequest voicePatterns "switch to a diet now" = true :=
  C9_tier_monotone "switch to a diet now" (by decide)

/-- C5 (confirmed): check ordering at the Session Endpoint.  With both
secrets configured, a POST whose extracted user text is classified as
blocked is answered with the 403 content violation whatever the
`guard_token` field holds (absent, invalid or valid) — token verification
sits in the later `else` branch and is reached only when the content
re-check passes.  `hempty` records that the pattern tier does not block the
empty string (true of every deployed tier; the handler skips the re-check
for falsy text, so a blocked text is automatically nonempty). -/
theorem C5_content_first (patterns : List Re) (mac : String → String → String)
    (env : SessionEnv) (body : SessionBody) (now : Nat)
    (hapi : jsPresent env.apiKey = true) (hsec : jsPresent env.guardSecret = true)
    (t : String) (hextract : extractUserText body = some t)
    (hblocked : isBlockedHealthRequest patterns t = true)
    (hempty : isBlockedHealthRequest patterns "" = false) :
    sessionHandler patterns mac env "POST" (some body) now
      = SessionOutcome.contentBlocked := by
  have htne : t ≠ "" := by
    intro h
    rw [h, hempty] at hblocked
    exact Bool.false_ne_true hblocked
  have hb : (t != "") = true := bne_iff_ne.mpr htne
  unfold sessionHandler
  rw [if_neg (by decide), if_neg (by decide), if_neg (by simp [hapi]),
    if_neg (by simp [hsec])]
  simp only [Option.getD_some, hextract, hblocked, hb]
  simp

set_option maxRecDepth 8000 in
theorem C5_content_first_witness :
    sessionHandler narrowPatterns macModel
      { apiKey := some "k", guardSecret := some "s" } "POST"
      (some { transcript := some "need a diet plan",
              guard_token := some "not.a.valid.token" }) 0
      = SessionOutcome.contentBlocked :=
  C5_content_first narrowPatterns macModel
    { apiKey := some "k", guardSecret := some "s" }
    { transcript := some "need a diet plan", guard_token := some "not.a.valid.token" }
    0 (by decide) (by decide) "need a diet plan" rfl (by decide) (by decide)

/-- C10 (confirmed, implicit): alias extraction shadows the content
re-check.  Conjuncts 1–6: the re-classified user text is exactly the first
non-nullish field in the fixed priority order `user_text`, `text`,
`prompt`, `query`, `transcript` (and nothing when all five are absent).
Conjunct 7: for every request — at whichever priority position the first
present alias sits — whose extracted text, if any, is benign or empty, the
lower-priority alias fields (which may hold blocked text) are never
classified, the content re-check passes, and the request proceeds to
session creation whenever it carries a valid guard token.  Conjunct 8: the
handler's outcome is invariant under the body's properties outside the
fields it reads (`extra`), so text supplied under any key name outside the
five aliases is never classified at all. -/
theorem C10_alias_shadowing :
    (∀ (b : SessionBody) (t : String), b.user_text = some t →
      extractUserText b = some t)
    ∧ (∀ (b : SessionBody) (t : String), b.user_text = none →
      b.text = some t → extractUserText b = some t)
    ∧ (∀ (b : SessionBody) (t : String), b.user_text = none → b.text = none →
      b.prompt = some t → extractUserText b = some t)
    ∧ (∀ (b : SessionBody) (t : String), b.user_text = none → b.text = none →
      b.prompt = none → b.query = some t → extractUserText b = some t)
    ∧ (∀ (b : SessionBody) (t : String), b.user_text = none → b.text = none →
      b.prompt = none → b.query = none → b.transcript = some t →
      extractUserText b = some t)
    ∧ (∀ b : SessionBody, b.user_text = none → b.text = none →
      b.prompt = none → b.query = none → b.transcript = none →
      extractUserText b = none)
    ∧ (∀ (patterns : List Re) (mac : String → String → String)
        (env : SessionEnv) (body : SessionBody) (now : Nat) (tok : String),
        jsPresent env.apiKey = true → jsPresent env.guardSecret = true →
        (∀ t, extractUserText body = some t →
          t = "" ∨ isBlockedHealthRequest patterns t = false) →
        body.guard_token = some tok → tok ≠ "" →
        isValidGuardToken mac tok (env.guardSecret.getD "") now = true →
        sessionHandler patterns mac env "POST" (some body) now
          = SessionOutcome.createSession
              (jsOrStr body.model (jsOrStr env.envModel "gpt-4o-realtime-preview")))
    ∧ (∀ (patterns : List Re) (mac : String → String → String)
        (env : SessionEnv) (method : String) (b : SessionBody)
        (xs : List (String × String)) (now : Nat),
        sessionHandler patterns mac env method (some { b with extra := xs }) now
          = sessionHandler patterns mac env method (some { b with extra := [] })
              now) := by
  refine ⟨?_, ?_, ?_, ?_, ?_, ?_, ?_, ?_⟩
  · intro b t h
    unfold extractUserText
    rw [h]
    rfl
  · intro b t h1 h2
    unfold extractUserText
    rw [h1, h2]
    rfl
  · intro b t h1 h2 h3
    unfold extractUserText
    rw [h1, h2, h3]
    rfl
  · intro b t h1 h2 h3 h4
    unfold extractUserText
    rw [h1, h2, h3, h4]
    rfl
  · intro b t h1 h2 h3 h4 h5
    unfold extractUserText
    rw [h1, h2, h3, h4, h5]
    rfl
  · intro b h1 h2 h3 h4 h5
    unfold extractUserText
    rw [h1, h2, h3, h4, h5]
    rfl
  · intro patterns mac env body now tok hapi hsec hbenign htok htokne hvalid
    have htokb : (tok != "") = true := bne_iff_ne.mpr htokne
    have hcond : (match extractUserText body with
        | some t => (t != "") && isBlockedHealthRequest patterns t
        | none => false) = false := by
      rcases hex : extractUserText body with _ | t
      · rfl
      · simp only []
        rcases hbenign t hex with rfl | hfalse
        · rfl
        · rw [hfalse, Bool.and_false]
    unfold sessionHandler
    rw [if_neg (by decide), if_neg (by decide), if_neg (by simp [hapi]),
      if_neg (by simp [hsec])]
    simp only [Option.getD_some, hcond, htok, htokb, hvalid]
    simp
  · intro patterns mac env method b xs now
    rfl

/-- Concrete request for the C10 witness: the first present alias is
`text` (benign), a blocked utterance sits in the lower-priority
`transcript`, and another blocked utterance sits under a key outside the
five aliases. -/
def c10Body : SessionBody :=
  { text := some "play some jazz",
    transcript := some "give me a diet plan",
    guard_token := some (signGuardToken macModel "s" 100),
    extra := [("note", "give me a diet plan")] }

set_option maxRecDepth 8000 in
theorem C10_alias_shadowing_witness :
    extractUserText c10Body = some "play some jazz"
    ∧ sessionHandler narrowPatterns macModel
        { apiKey := some "k", guardSecret := some "s" } "POST" (some c10Body) 50
      = SessionOutcome.createSession "gpt-4o-realtime-preview"
    ∧ sessionHandler narrowPatterns macModel
        { apiKey := some "k", guardSecret := some "s" } "POST"
        (some { c10Body with extra := [("note", "give me a diet plan")] }) 50
      = sessionHandler narrowPatterns macModel
          { apiKey := some "k", guardSecret := some "s" } "POST"
          (some { c10Body with extra := [] }) 50 :=
  ⟨C10_alias_shadowing.2.1 c10Body "play some jazz" rfl rfl,
   C10_alias_shadowing.2.2.2.2.2.2.1 narrowPatterns macModel
     { apiKey := some "k", guardSecret := some "s" } c10Body 50
     (signGuardToken macModel "s" 100) (by decide) (by decide)
     (fun t ht => by
       have h : t = "play some jazz" :=
         (Option.some.inj
           ((show extractUserText c10Body = some "play some jazz" from rfl).symm.trans
             ht)).symm
       subst h
       exact Or.inr (by decide))
     rfl (by decide) (by decide),
   C10_alias_shadowing.2.2.2.2.2.2.2 narrowPatterns macModel
     { apiKey := some "k", guardSecret := some "s" } "POST" c10Body
     [("note", "give me a diet plan")] 50⟩

/-- C8 (corrected) — counterexample to the claim as stated: a Guard
Endpoint request whose transcript resolves to the empty string (here: the
direct `transcript` field is `""` and no audio is supplied) is *not*
answered with a validation error; the handler skips classification
(`transcript ? … : false`) and proceeds to mint a guard token with a 200. -/
theorem C8_counterexample :
    guardHandler narrowPatterns macModel
      { apiKey := some "k", guardSecret := some "s" } "POST"
      (.ok (some { transcript := some "" })) (.ok none) 0
      = GuardOutcome.allowedToken (signGuardToken macModel "s" guardTokenTtlSeconds)
          "" guardTokenTtlSeconds := rfl

/-- C8 (corrected), amended: an absent-or-empty transcript is a validation
error only on the Voice-Chat endpoint (400 `Empty transcript`, before any
classification or chat call); the Guard endpoints treat it as unblocked —
they skip classification and mint a guard token (200) — whether the empty
transcript came from the Transcription Collaborator or from the direct
text fields. -/
theorem C8_empty_transcript (patterns : List Re) (mac : String → String → String)
    (env : SessionEnv) (now : Nat)
    (hapi : jsPresent env.apiKey = true) (hsec : jsPresent env.guardSecret = true) :
    (∀ (b : VoiceBody) (t : Option String),
      jsPresent b.audio_base64 = true →
      jsOrStr (t.map jsTrim) "" = "" →
      voiceChatHandler env (.ok (some b)) (.ok t) = VoiceOutcome.emptyTranscript)
    ∧ (∀ (b : GuardBody) (t : Option String),
        jsPresent b.audio_base64 = true →
        jsOrStr (t.map jsTrim) "" = "" →
        guardHandler patterns mac env "POST" (.ok (some b)) (.ok t) now
          = GuardOutcome.allowedToken
              (signGuardToken mac (env.guardSecret.getD "")
                (now + guardTokenTtlSeconds))
              "" (now + guardTokenTtlSeconds))
    ∧ (∀ (b : GuardBody) (tr : TranscribeResult),
        jsPresent b.audio_base64 = false →
        jsTrim ((b.transcript.or b.text).getD "") = "" →
        guardHandler patterns mac env "POST" (.ok (some b)) tr now
          = GuardOutcome.allowedToken
              (signGuardToken mac (env.guardSecret.getD "")
                (now + guardTokenTtlSeconds))
              "" (now + guardTokenTtlSeconds)) := by
  refine ⟨?_, ?_, ?_⟩
  · intro b t haudio hempty
    unfold voiceChatHandler
    rw [if_neg (by simp [hapi])]
    simp only [Option.getD_some, if_neg (by simp [haudio] : ¬ jsPresent b.audio_base64 = false)]
    rw [hempty]
    simp [haudio]
  · intro b t haudio hempty
    unfold guardHandler
    rw [if_neg (by decide), if_neg (by decide), if_neg (by simp [hapi]),
      if_neg (by simp [hsec])]
    simp only [Option.getD_some, haudio, if_pos, hempty]
    unfold guardFinish
    simp
  · intro b tr haudio hempty
    unfold guardHandler
    rw [if_neg (by decide), if_neg (by decide), if_neg (by simp [hapi]),
      if_neg (by simp [hsec])]
    simp only [Option.getD_some, haudio, hempty]
    unfold guardFinish
    simp

theorem C8_empty_transcript_witness :
    voiceChatHandler { apiKey := some "k", guardSecret := some "s" }
        (.ok (some { audio_base64 := some "QUJD" })) (.ok (some "  "))
      = VoiceOutcome.emptyTranscript
    ∧ guardHandler narrowPatterns macModel
        { apiKey := some "k", guardSecret := some "s" } "POST"
        (.ok (some { audio_base64 := some "QUJD" })) (.ok (some "  ")) 7
      = GuardOutcome.allowedToken (signGuardToken macModel "s" (7 + guardTokenTtlSeconds))
          "" (7 + guardTokenTtlSeconds)
    ∧ guardHandler narrowPatterns macModel
        { apiKey := some "k", guardSecret := some "s" } "POST"
        (.ok (some { text := some " " })) (.ok none) 7
      = GuardOutcome.allowedToken (signGuardToken macModel "s" (7 + guardTokenTtlSeconds))
          "" (7 + guardTokenTtlSeconds) :=
  ⟨(C8_empty_transcript narrowPatterns macModel
      { apiKey := some "k", guardSecret := some "s" } 7 (by decide) (by decide)).1
      { audio_base64 := some "QUJD" } (some "  ") (by decide) (by decide),
   (C8_empty_transcript narrowPatterns macModel
      { apiKey := some "k", guardSecret := some "s" } 7 (by decide) (by decide)).2.1
      { audio_base64 := some "QUJD" } (some "  ") (by decide) (by decide),
   (C8_empty_transcript narrowPatterns macModel
      { apiKey := some "k", guardSecret := some "s" } 7 (by decide) (by decide)).2.2
      { text := some " " } (.ok none) (by decide) (by decide)⟩

/-- C2 (confirmed): the verifier is total and fail-closed.  Totality holds
by construction — `isValidGuardToken` is a total function into `Bool` (the
source catches the fallible payload work in `try`/`catch`).  The enumerated
fail-closed conditions are stated contrapositively: whenever the verifier
returns `true`, the token had exactly two dot-separated segments, the
recomputed HMAC over the payload segment equals the signature segment, the
payload segment decoded and `JSON.parse`d, the decoded payload carried
(truthy, hence present) `allowed` and `exp` fields, and the expiry was not
strictly in the past at verification time.  Hence each claimed condition —
wrong segment count, signature mismatch, non-JSON payload, missing field,
expiry in the past — forces `false`. -/
theorem C2_fail_closed (mac : String → String → String) (token secret : String)
    (now : Nat) (hacc : isValidGuardToken mac token secret now = true) :
    ∃ p s, splitDot token.data = [p, s]
      ∧ s = (mac secret (String.mk p)).data
      ∧ ∃ payloadChars payload, base64UrlDecode p = some payloadChars
        ∧ jsonParse payloadChars = some payload
        ∧ jsTruthy (getField payload allowedKey) = true
        ∧ jsTruthy (getField payload expKey) = true
        ∧ ∃ (j : Json) (e : Int), getField payload expKey = some j
            ∧ jsToNumber j = some e ∧ (now : Int) ≤ e := by
  rcases hsp : splitDot token.data with _ | ⟨p, _ | ⟨s, _ | ⟨x, xs⟩⟩⟩
  · have hfalse : isValidGuardToken mac token secret now = false := by
      unfold isValidGuardToken
      rw [hsp]
    rw [hfalse] at hacc
    exact absurd hacc (by decide)
  · have hfalse : isValidGuardToken mac token secret now = false := by
      unfold isValidGuardToken
      rw [hsp]
    rw [hfalse] at hacc
    exact absurd hacc (by decide)
  swap
  · have hfalse : isValidGuardToken mac token secret now = false := by
      unfold isValidGuardToken
      rw [hsp]
    rw [hfalse] at hacc
    exact absurd hacc (by decide)
  rw [isValidGuardToken_parts mac token secret now p s hsp] at hacc
  by_cases hsig : s = (mac secret (String.mk p)).data
  · rw [if_neg (not_not_intro hsig)] at hacc
    rcases hdec : base64UrlDecode p with _ | payloadChars
    · simp only [hdec] at hacc
      exact absurd hacc (by decide)
    · simp only [hdec] at hacc
      rcases hjson : jsonParse payloadChars with _ | payload
      · simp only [hjson] at hacc
        exact absurd hacc (by decide)
      · simp only [hjson] at hacc
        by_cases hcond : ¬ (jsTruthy (getField payload allowedKey) = true)
            ∨ ¬ (jsTruthy (getField payload expKey) = true)
        · rw [if_pos hcond] at hacc
          exact absurd hacc (by decide)
        · rw [if_neg hcond] at hacc
          push_neg at hcond
          obtain ⟨hall, hexp⟩ := hcond
          unfold jsGeNow at hacc
          rcases hget : getField payload expKey with _ | j
          · simp only [hget] at hacc
            exact absurd hacc (by decide)
          · simp only [hget] at hacc
            rcases hnum : jsToNumber j with _ | e
            · simp only [hnum] at hacc
              exact absurd hacc (by decide)
            · simp only [hnum] at hacc
              simp only [decide_eq_true_eq] at hacc
              exact ⟨p, s, rfl, hsig, payloadChars, payload, hdec, hjson,
                hall, hexp, j, e, hget, hnum, hacc⟩
  · rw [if_pos hsig] at hacc
    exact absurd hacc (by decide)

set_option maxRecDepth 20000 in
theorem C2_fail_closed_witness :
    ∃ p s,
      splitDot (signGuardToken macModel "s3cret" 100).data = [p, s]
      ∧ s = (macModel "s3cret" (String.mk p)).data
      ∧ ∃ payloadChars payload, base64UrlDecode p = some payloadChars
        ∧ jsonParse payloadChars = some payload
        ∧ jsTruthy (getField payload allowedKey) = true
        ∧ jsTruthy (getField payload expKey) = true
        ∧ ∃ (j : Json) (e : Int), getField payload expKey = some j
            ∧ jsToNumber j = some e ∧ ((40 : Nat) : Int) ≤ e :=
  C2_fail_closed macModel (signGuardToken macModel "s3cret" 100) "s3cret" 40
    (by decide)

/-- C4 (corrected) — counterexample to the claim as stated: the narrow
diet/nutrition-only tier (deployed in `src/unnamed/part_003`,
`src/unnamed/part_004` and the later variants of `src/api/realtime/guard.ts`)
has no pattern for "medication" or "headache", so that deployed classifier
variant returns `false` on the scenario text, contradicting "every variant
returns true" on it. -/
theorem C4_counterexample :
    isBlockedHealthRequest narrowPatterns
      "What medication should I take for a headache?" = false := by decide

/-- C4 (corrected), amended: for every deployed classifier variant, every
input text that contains one of *that* variant's blocklisted terms —
whatever the letter case of the term and whatever space-separated text
surrounds it — is blocked; and the scenario text about medication for a
headache is blocked by the broad and voice-chat variants.  (It is not
blocked by the narrow variant, whose term list has no medical vocabulary —
see the counterexample.) -/
theorem C4_classifier_completeness :
    (∀ pre t post : String, String.mk (t.data.map jsToLowerChar) ∈ broadTerms →
      isBlockedHealthRequest broadPatterns (pre ++ " " ++ t ++ " " ++ post) = true)
    ∧ (∀ pre t post : String, String.mk (t.data.map jsToLowerChar) ∈ narrowTerms →
      isBlockedHealthRequest narrowPatterns (pre ++ " " ++ t ++ " " ++ post) = true)
    ∧ (∀ pre t post : String, String.mk (t.data.map jsToLowerChar) ∈ voiceTerms →
      isBlockedHealthRequest voicePatterns (pre ++ " " ++ t ++ " " ++ post) = true)
    ∧ isBlockedHealthRequest broadPatterns
        "What medication should I take for a headache?" = true
    ∧ isBlockedHealthRequest voicePatterns
        "What medication should I take for a headache?" = true := by
  refine ⟨fun pre t post hmem => isBlocked_of_term _ _ (by decide) pre t post hmem,
    fun pre t post hmem => isBlocked_of_term _ _ (by decide) pre t post hmem,
    fun pre t post hmem => isBlocked_of_term _ _ (by decide) pre t post hmem,
    by decide, by decide⟩

theorem C4_classifier_completeness_witness :
    isBlockedHealthRequest broadPatterns
        ("please" ++ " " ++ "Medication" ++ " " ++ "advice now") = true
    ∧ isBlockedHealthRequest narrowPatterns
        ("give me" ++ " " ++ "DIET" ++ " " ++ "plans") = true
    ∧ isBlockedHealthRequest voicePatterns
        ("my" ++ " " ++ "Sleep" ++ " " ++ "is bad") = true :=
  ⟨C4_classifier_completeness.1 "please" "Medication" "advice now" (by decide),
   C4_classifier_completeness.2.1 "give me" "DIET" "plans" (by decide),
   C4_classifier_completeness.2.2.1 "my" "Sleep" "is bad" (by decide)⟩

/-- Like `signGuardToken_split` but for a token signed over an arbitrary
payload string. -/
theorem signedTokenFor_split (mac : String → String → String)
    (secret payload : String)
    (hdot : '.' ∉ (mac secret (base64UrlEncode payload)).data) :
    splitDot (signedTokenFor mac secret payload).data
      = [(base64UrlEncode payload).data,
         (mac secret (base64UrlEncode payload)).data] := by
  have hdata : (signedTokenFor mac secret payload).data
      = (base64UrlEncode payload).data
        ++ '.' :: (mac secret (base64UrlEncode payload)).data := by
    show (base64UrlEncode payload ++ "." ++ mac secret (base64UrlEncode payload)).data
        = _
    rw [string_data_append, string_data_append]
    simp
  rw [hdata]
  exact splitDot_pair _ _ (encode_no_dot _) hdot

/-- C6 (corrected), amended: the verifier tests `allowed` for JavaScript
truthiness (`!payload.allowed`), not for being exactly the boolean `true`.
A correctly signed token whose `allowed` is falsy (`false`, `0`, `""`,
`null` — or missing) is rejected, but a correctly signed token whose
`allowed` is any truthy value (for example the number `1` or a non-empty
string) passes the `allowed` check and is accepted whenever its `exp` is
truthy and not in the past. -/
theorem C6_allowed_truthiness (mac : String → String → String)
    (hdot : ∀ s m, '.' ∉ (mac s m).data) :
    (∀ (secret payloadStr : String) (now : Nat) (payload : Json),
       jsonParse payloadStr.data = some payload →
       (∀ c ∈ payloadStr.data, c.toNat < 128) →
       jsTruthy (getField payload allowedKey) = false →
       isValidGuardToken mac (signedTokenFor mac secret payloadStr) secret now
         = false)
    ∧ (∀ (secret payloadStr : String) (now : Nat) (payload : Json),
       jsonParse payloadStr.data = some payload →
       (∀ c ∈ payloadStr.data, c.toNat < 128) →
       jsTruthy (getField payload allowedKey) = true →
       jsTruthy (getField payload expKey) = true →
       jsGeNow (getField payload expKey) now = true →
       isValidGuardToken mac (signedTokenFor mac secret payloadStr) secret now
         = true) := by
  constructor
  · intro secret payloadStr now payload hjson hascii hfalsy
    rw [isValidGuardToken_parts mac _ secret now _ _
      (signedTokenFor_split mac secret payloadStr (hdot _ _)), string_mk_data]
    rw [if_neg (fun hne => hne rfl)]
    have hdec : base64UrlDecode (base64UrlEncode payloadStr).data
        = some payloadStr.data := base64UrlDecode_encode payloadStr hascii
    simp only [hdec, hjson]
    rw [if_pos (Or.inl (by simp [hfalsy]))]
  · intro secret payloadStr now payload hjson hascii hall hexp hge
    rw [isValidGuardToken_parts mac _ secret now _ _
      (signedTokenFor_split mac secret payloadStr (hdot _ _)), string_mk_data]
    rw [if_neg (fun hne => hne rfl)]
    have hdec : base64UrlDecode (base64UrlEncode payloadStr).data
        = some payloadStr.data := base64UrlDecode_encode payloadStr hascii
    simp only [hdec, hjson]
    rw [if_neg]
    · exact hge
    · rw [not_or]
      exact ⟨fun h => h hall, fun h => h hexp⟩

/-- C6 (corrected) — counterexample to the claim as stated: a correctly
signed, unexpired token whose payload carries `allowed: 1` (a non-boolean
truthy value) is accepted by the verifier, where the claim demands
rejection of anything other than the boolean `true`. -/
theorem C6_counterexample :
    isValidGuardToken macModel
      (signedTokenFor macModel "s" "\x7b\"exp\":9999999999,\"allowed\":1\x7d")
      "s" 1000 = true := by decide

theorem C6_allowed_truthiness_witness :
    isValidGuardToken macModel
        (signedTokenFor macModel "s" "\x7b\"exp\":9,\"allowed\":false\x7d") "s" 3
      = false
    ∧ isValidGuardToken macModel
        (signedTokenFor macModel "s" "\x7b\"exp\":9,\"allowed\":\"yes\"\x7d") "s" 3
      = true :=
  ⟨(C6_allowed_truthiness macModel macModel_no_dot).1 "s"
      "\x7b\"exp\":9,\"allowed\":false\x7d" 3
      (Json.obj [(expKey, Json.num 9), (allowedKey, Json.bool false)])
      rfl (by decide) (by decide),
   (C6_allowed_truthiness macModel macModel_no_dot).2 "s"
      "\x7b\"exp\":9,\"allowed\":\"yes\"\x7d" 3
      (Json.obj [(expKey, Json.num 9), (allowedKey, Json.str ['y', 'e', 's'])])
      rfl (by decide) (by decide) (by decide) (by decide)⟩

end CarplayGuard
